import Mathlib

/-!
# Decentralized posts: backend handlers, content-store service and frontend publish flow

Shallow embedding of
* `backend/server.js` (`initializeServices` and the routes `POST /api/createPost`,
  `GET /api/posts`, `GET /api/health`),
* `backend/ipfs-service.js` (`IpfsService.init`, `storePost`, `getPost`),
* `frontend/app.js` (`handleCreatePost`, `renderPosts`).

Asynchronous code is embedded as sequential state passing: every function returns its
result together with the list of external effects it performed, in program order.
External systems (the IPFS node, the ledger contract, the HTTP link between frontend and
backend) are outcome functions carried by the handles the code holds.
-/

namespace DecentralizedPosts

/-! ## JavaScript values -/

/-- JavaScript values that flow through the handlers: JSON data plus `undefined`.
Numbers are integers (the only numbers the handlers inspect are tested for truthiness).
An object is the list of its own enumerable properties in insertion order; the engine's
reordering of integer-like keys is not modelled, properties are read by name. -/
inductive JsVal where
  | undefined
  | null
  | bool (b : Bool)
  | num (n : Int)
  | str (s : String)
  | arr (items : List JsVal)
  | obj (props : List (String × JsVal))

namespace JsVal

/-- JavaScript `ToBoolean`. -/
def truthy : JsVal → Bool
  | undefined => false
  | null => false
  | bool b => b
  | num n => n != 0
  | str s => s != ""
  | arr _ => true
  | obj _ => true

/-- Value stored under a key in a property list; when a key is listed twice the later
entry wins, as in an object literal. -/
def findProp : List (String × JsVal) → String → Option JsVal
  | [], _ => none
  | (k, v) :: rest, key =>
    match findProp rest key with
    | some w => some w
    | none => if k = key then some v else none

/-- Property read `v.key` for the property names the handlers use (`title`, `content`,
`author`, `success`, `error`, `ipfsHash`), none of which is defined on a prototype: a
missing property reads as `undefined`, and reading from `undefined` or `null` throws. -/
def getProp (v : JsVal) (key : String) : Except String JsVal :=
  match v with
  | undefined => .error "TypeError"
  | null => .error "TypeError"
  | obj props => .ok ((findProp props key).getD undefined)
  | _ => .ok undefined

/-- Assignment of an own property: an existing key keeps its position and takes the new
value, a new key is appended. -/
def setProp : List (String × JsVal) → String → JsVal → List (String × JsVal)
  | [], k, v => [(k, v)]
  | (k', v') :: rest, k, v => if k' = k then (k', v) :: rest else (k', v') :: setProp rest k v

/-- Own enumerable string-keyed properties copied by object spread `...v`. -/
def ownEnumerable : JsVal → List (String × JsVal)
  | obj props => props
  | arr items => items.enum.map (fun p => (toString p.1, p.2))
  | str s => s.toList.enum.map (fun p => (toString p.1, str (String.singleton p.2)))
  | _ => []

/-- Object literal spread: `\x7b ...base, ...src \x7d` where `base` holds the properties
already written by the literal. -/
def spreadInto (base : List (String × JsVal)) (src : JsVal) : List (String × JsVal) :=
  (ownEnumerable src).foldl (fun o kv => setProp o kv.1 kv.2) base

/-- Field of an object value, `undefined` when absent or when the value is no object. -/
def field (v : JsVal) (key : String) : JsVal :=
  match v with
  | obj props => (findProp props key).getD undefined
  | _ => undefined

end JsVal

/-! ## External effects -/

/-- External effects, recorded in program order. -/
inductive Effect where
  | consoleLog (msg : String)
  | consoleError (msg : String)
  | ipfsVersion
  | ipfsAdd (payload : List Nat)
  | ipfsCat (hash : String)
  | storePost (postData : JsVal)
  | getPost (hash : String)
  | getAllPosts
  | fetchCreatePost (body : JsVal)
  | createPost (ipfsHash : JsVal)
  | txWait
  | showStatus (message : String) (type : String)
  | formReset
  | scheduleLoadPosts

namespace Effect

/-- Recognises a call of `ipfsService.storePost`. -/
def isStorePost : Effect → Bool
  | storePost _ => true
  | _ => false

/-- Recognises a call of `contract.createPost`. -/
def isCreatePost : Effect → Bool
  | createPost _ => true
  | _ => false

/-- Recognises a call that reaches the ledger (read or write). -/
def isLedger : Effect → Bool
  | getAllPosts => true
  | createPost _ => true
  | txWait => true
  | _ => false

/-- Recognises the publish request sent to the backend. -/
def isFetchCreatePost : Effect → Bool
  | fetchCreatePost _ => true
  | _ => false

/-- Recognises an error written to the console. -/
def isConsoleError : Effect → Bool
  | consoleError _ => true
  | _ => false

end Effect

/-! ## Runtime primitives and external handles -/

/-- Language-runtime primitives used by `ipfs-service.js`: `JSON.stringify`, `JSON.parse`,
the UTF-8 encoding applied to a string handed to `ipfs.add`, and `Buffer#toString`.
`jsonStringify` answers `none` for `undefined`. -/
structure Runtime where
  jsonStringify : JsVal → Option String
  jsonParse : String → Except String JsVal
  utf8Encode : String → List Nat
  utf8Decode : List Nat → String

/-- Behaviour of the client returned by `create(...)` of `ipfs-http-client`: `add` answers
the content identifier, `cat` answers the chunks streamed for an identifier. -/
structure IpfsClient where
  version : Except String String
  add : List Nat → Except String String
  cat : String → Except String (List (List Nat))

/-- Ledger entry as returned by `getAllPosts`. -/
structure LedgerEntry where
  id : Nat
  creator : String
  ipfsHash : String
  rating : Int
  timestamp : Nat

/-- Contents of `contract-info.json`. -/
structure ContractInfo where
  address : String
  abi : String

/-- Behaviour of an `ethers.Contract` handle: `createPost` answers a transaction whose
`wait()` outcome is the inner result. -/
structure Contract where
  address : String
  getAllPosts : Except String (List LedgerEntry)
  createPost : JsVal → Except String (Except String Unit)

/-! ## backend/ipfs-service.js -/

/-- Class `IpfsService`: the field `this.ipfs` (`null` until `init` creates the client). -/
structure IpfsService where
  ipfs : Option IpfsClient

namespace IpfsService

/-- The `constructor()`. -/
def new : IpfsService := ⟨none⟩

/-- Method `init()`: creates the client, then tests the connection with `version()`;
any failure is logged and rethrown. `create` is the outcome of `create(\x7b...\x7d)`. -/
def init (self : IpfsService) (create : Except String IpfsClient) :
    IpfsService × Except String Unit × List Effect :=
  match create with
  | .error e => (self, .error e, [.consoleError "Failed to connect to IPFS:"])
  | .ok client =>
    match client.version with
    | .error e =>
      (⟨some client⟩, .error e, [.ipfsVersion, .consoleError "Failed to connect to IPFS:"])
    | .ok v =>
      (⟨some client⟩, .ok (), [.ipfsVersion, .consoleLog ("Connected to IPFS node version: " ++ v)])

/-- Method `storePost(postData)`. `JSON.stringify` answers `undefined` only for a value
that is no JSON data, which no caller passes; the call is made to fail there. -/
def storePost (rt : Runtime) (self : IpfsService) (postData : JsVal) :
    Except String String × List Effect :=
  match self.ipfs with
  | none => (.error "TypeError", [.consoleError "Error storing post on IPFS:"])
  | some client =>
    match rt.jsonStringify postData with
    | none => (.error "TypeError", [.consoleError "Error storing post on IPFS:"])
    | some text =>
      match client.add (rt.utf8Encode text) with
      | .ok cid => (.ok cid, [.ipfsAdd (rt.utf8Encode text)])
      | .error e =>
        (.error e, [.ipfsAdd (rt.utf8Encode text), .consoleError "Error storing post on IPFS:"])

/-- Method `getPost(hash)`: the chunks streamed by `cat` are concatenated, decoded and
parsed; any failure is logged and rethrown. -/
def getPost (rt : Runtime) (self : IpfsService) (hash : String) :
    Except String JsVal × List Effect :=
  match self.ipfs with
  | none => (.error "TypeError", [.consoleError "Error retrieving post from IPFS:"])
  | some client =>
    match client.cat hash with
    | .error e => (.error e, [.ipfsCat hash, .consoleError "Error retrieving post from IPFS:"])
    | .ok chunks =>
      match rt.jsonParse (rt.utf8Decode chunks.flatten) with
      | .ok v => (.ok v, [.ipfsCat hash])
      | .error e => (.error e, [.ipfsCat hash, .consoleError "Error retrieving post from IPFS:"])

end IpfsService

/-! ## backend/server.js -/

/-- Module-level variables `contract`, `provider`, `ipfsService` (`none` is `undefined`). -/
structure ServerState where
  contract : Option Contract
  provider : Bool
  ipfsService : Option IpfsService

/-- State of the module before `initializeServices` has run. -/
def ServerState.initial : ServerState := ⟨none, false, none⟩

/-- Outcomes of the external calls made by `initializeServices`. `contractInfoFile` is
`none` when `fs.existsSync` answers false, otherwise the outcome of reading and parsing
the file. -/
structure StartupWorld where
  ipfsCreate : Except String IpfsClient
  newProvider : Except String Unit
  contractInfoFile : Option (Except String ContractInfo)
  newContract : ContractInfo → Except String Contract

/-- Function `initializeServices()`. -/
def initializeServices (w : StartupWorld) (st : ServerState) : ServerState × List Effect :=
  let r := IpfsService.new.init w.ipfsCreate
  let st1 : ServerState := { st with ipfsService := some r.1 }
  match r.2.1 with
  | .error _ => (st1, r.2.2 ++ [.consoleError "Failed to initialize services:"])
  | .ok _ =>
    let eff := r.2.2 ++ [.consoleLog "IPFS service initialized"]
    match w.newProvider with
    | .error _ => (st1, eff ++ [.consoleError "Failed to initialize services:"])
    | .ok _ =>
      let st2 : ServerState := { st1 with provider := true }
      match w.contractInfoFile with
      | none =>
        (st2, eff ++ [.consoleError "Contract info not found. Please deploy the contract first."])
      | some (.error _) => (st2, eff ++ [.consoleError "Failed to initialize services:"])
      | some (.ok info) =>
        match w.newContract info with
        | .error _ => (st2, eff ++ [.consoleError "Failed to initialize services:"])
        | .ok c =>
          ({ st2 with contract := some c },
            eff ++ [.consoleLog ("Contract connected at: " ++ info.address)])

/-- HTTP response written through `res`. -/
structure Response where
  status : Nat
  body : JsVal

/-- Body `\x7b error: msg \x7d`. -/
def errorBody (msg : String) : JsVal := .obj [("error", .str msg)]

/-- The object `postData` built by `POST /api/createPost`. -/
def mkPostData (title content author : JsVal) (now : String) : JsVal :=
  .obj [("title", title), ("content", content),
    ("author", if author.truthy then author else .str "Anonymous"),
    ("timestamp", .str now)]

/-- Route `POST /api/createPost`; `now` is the value of `new Date().toISOString()`. -/
def postApiCreatePost (rt : Runtime) (st : ServerState) (now : String) (body : JsVal) :
    Response × List Effect :=
  let failed : Response := ⟨500, errorBody "Failed to create post"⟩
  match body.getProp "title", body.getProp "content", body.getProp "author" with
  | .ok title, .ok content, .ok author =>
    if !title.truthy || !content.truthy then
      (⟨400, errorBody "Title and content are required"⟩, [])
    else
      let postData := mkPostData title content author now
      match st.ipfsService with
      | none => (failed, [.consoleError "Error creating post:"])
      | some svc =>
        let r := svc.storePost rt postData
        match r.1 with
        | .error _ => (failed, .storePost postData :: r.2 ++ [.consoleError "Error creating post:"])
        | .ok ipfsHash =>
          (⟨200, .obj [("success", .bool true), ("ipfsHash", .str ipfsHash),
              ("message", .str "Post stored on IPFS. Now create it on blockchain via frontend.")]⟩,
            .storePost postData :: r.2 ++ [.consoleLog ("Post stored on IPFS: " ++ ipfsHash)])
  | _, _, _ => (failed, [.consoleError "Error creating post:"])

/-- Ledger fields written first by both object literals of `GET /api/posts`. -/
def ledgerFields (post : LedgerEntry) : List (String × JsVal) :=
  [("id", .str (toString post.id)), ("creator", .str post.creator),
    ("ipfsHash", .str post.ipfsHash), ("rating", .str (toString post.rating)),
    ("timestamp", .str (toString post.timestamp))]

/-- Object returned by the `catch` branch of the per-post callback. -/
def placeholderPost (post : LedgerEntry) : JsVal :=
  .obj (ledgerFields post ++
    [("title", .str "Error loading content"),
      ("content", .str "Could not load post content from IPFS"),
      ("author", .str "Unknown")])

/-- Object returned by the `try` branch of the per-post callback:
`\x7b id, creator, ipfsHash, rating, timestamp, ...ipfsData \x7d`. -/
def mergedPost (post : LedgerEntry) (ipfsData : JsVal) : JsVal :=
  .obj (JsVal.spreadInto (ledgerFields post) ipfsData)

/-- The callback mapped over `contractPosts` in `GET /api/posts`. -/
def fetchPost (rt : Runtime) (st : ServerState) (post : LedgerEntry) : JsVal × List Effect :=
  let logged : Effect :=
    .consoleError ("Error fetching IPFS data for post " ++ toString post.id ++ ":")
  match st.ipfsService with
  | none => (placeholderPost post, [logged])
  | some svc =>
    let r := svc.getPost rt post.ipfsHash
    match r.1 with
    | .ok ipfsData => (mergedPost post ipfsData, .getPost post.ipfsHash :: r.2)
    | .error _ => (placeholderPost post, .getPost post.ipfsHash :: r.2 ++ [logged])

/-- Route `GET /api/posts`. `Promise.all` keeps the results in the order of
`contractPosts`; the effects of the callbacks are listed callback by callback. -/
def getApiPosts (rt : Runtime) (st : ServerState) : Response × List Effect :=
  match st.contract with
  | none => (⟨500, errorBody "Contract not initialized"⟩, [])
  | some contract =>
    match contract.getAllPosts with
    | .error _ =>
      (⟨500, errorBody "Failed to fetch posts"⟩,
        [.getAllPosts, .consoleError "Error fetching posts:"])
    | .ok contractPosts =>
      let results := contractPosts.map (fetchPost rt st)
      (⟨200, .obj [("posts", .arr (results.map Prod.fst))]⟩,
        .getAllPosts :: (results.map Prod.snd).flatten)

/-- Route `GET /api/health`. -/
def getApiHealth (st : ServerState) : Response :=
  ⟨200, .obj [("status", .str "ok"),
    ("ipfs", .str (if st.ipfsService.isSome then "connected" else "disconnected")),
    ("contract", .str (if st.contract.isSome then "connected" else "disconnected"))]⟩

/-! ## frontend/app.js -/

/-- Characters removed by `String.prototype.trim` and skipped by `parseInt`
(ECMAScript `WhiteSpace` and `LineTerminator`). -/
def isJsWhitespace (c : Char) : Bool :=
  let n := c.toNat
  n = 0x09 || n = 0x0A || n = 0x0B || n = 0x0C || n = 0x0D || n = 0x20 || n = 0xA0 ||
  n = 0x1680 || (0x2000 ≤ n && n ≤ 0x200A) || n = 0x2028 || n = 0x2029 || n = 0x202F ||
  n = 0x205F || n = 0x3000 || n = 0xFEFF

/-- Method `String.prototype.trim`. -/
def jsTrim (s : String) : String :=
  String.mk (((s.toList.dropWhile isJsWhitespace).reverse.dropWhile isJsWhitespace).reverse)

mutual
/-- JavaScript `ToString` on the values of the embedding. -/
def jsToString : JsVal → String
  | .undefined => "undefined"
  | .null => "null"
  | .bool true => "true"
  | .bool false => "false"
  | .num n => toString n
  | .str s => s
  | .arr items => jsJoin items
  | .obj _ => "[object Object]"
/-- Method `Array.prototype.join` with the default separator. -/
def jsJoin : List JsVal → String
  | [] => ""
  | v :: rest =>
    let head := match v with
      | .undefined => ""
      | .null => ""
      | w => jsToString w
    match rest with
    | [] => head
    | _ :: _ => head ++ "," ++ jsJoin rest
end

/-- Message of `new Error(value)`: empty when the argument is `undefined`. -/
def errorMessage : JsVal → String
  | .undefined => ""
  | v => jsToString v

/-- Fields of `DecentralizedPostsApp` read by `handleCreatePost`. -/
structure AppState where
  contract : Option Contract

/-- Values of the inputs `post-title`, `post-content`, `post-author`. -/
structure FormInput where
  title : String
  content : String
  author : String

/-- Backend process answering `http://localhost:3001`: its runtime, its module state and
the clock value it reads while serving the request. -/
structure Backend where
  rt : Runtime
  state : ServerState
  now : String

/-- Effects of the `catch` block of `handleCreatePost`. -/
def publishFailed (message : String) : List Effect :=
  [.consoleError "Error creating post:", .showStatus ("Error: " ++ message) "error"]

/-- The steps of the `try` block of `handleCreatePost` that follow `response.json()`:
the check of `result.success`, the ledger write and the wait for its confirmation. -/
def anchorOnLedger (contract : Contract) (result : JsVal) : List Effect :=
  match result.getProp "success" with
  | .error m => publishFailed m
  | .ok success =>
    if !success.truthy then publishFailed (errorMessage (result.field "error"))
    else
      let ipfsHash := result.field "ipfsHash"
      let sent : List Effect :=
        [.showStatus "Post stored on IPFS. Creating on blockchain..." "success",
          .createPost ipfsHash]
      match contract.createPost ipfsHash with
      | .error m => sent ++ publishFailed m
      | .ok tx =>
        let waited : List Effect :=
          sent ++ [.showStatus "Transaction sent. Waiting for confirmation..." "success", .txWait]
        match tx with
        | .error m => waited ++ publishFailed m
        | .ok _ =>
          waited ++ [.showStatus "Post created successfully! 🎉" "success", .formReset,
            .scheduleLoadPosts]

/-- Method `handleCreatePost(e)`. `link` is the outcome of reaching the backend: an error
makes `fetch` reject; otherwise the backend route runs on the request body (the three
strings, as `express.json()` parses them) and `response.json()` yields the body the
route wrote. -/
def handleCreatePost (app : AppState) (form : FormInput) (link : Except String Backend) :
    List Effect :=
  let title := jsTrim form.title
  let content := jsTrim form.content
  let author := jsTrim form.author
  if title = "" ∨ content = "" then
    [.showStatus "Please fill in title and content" "error"]
  else
    match app.contract with
    | none => [.showStatus "Please connect your wallet first" "error"]
    | some contract =>
      let body : JsVal := .obj [("title", .str title), ("content", .str content),
        ("author", .str author)]
      let started : List Effect :=
        [.showStatus "Creating post on IPFS..." "success", .fetchCreatePost body]
      match link with
      | .error m => started ++ publishFailed m
      | .ok backend =>
        let r := postApiCreatePost backend.rt backend.state backend.now body
        started ++ r.2 ++ anchorOnLedger contract r.1.body

/-- Value of a digit in the given radix, `none` for any other character. -/
def digitValue (radix : Nat) (c : Char) : Option Nat :=
  let n := c.toNat
  let v := if 48 ≤ n ∧ n ≤ 57 then n - 48
    else if 97 ≤ n ∧ n ≤ 122 then n - 87
    else if 65 ≤ n ∧ n ≤ 90 then n - 55
    else radix
  if v < radix then some v else none

/-- Reads the longest run of digits at the front of the text: the number read so far and
whether any digit was seen. -/
def readDigits (radix : Nat) : List Char → Nat → Bool → Nat × Bool
  | [], acc, seen => (acc, seen)
  | c :: cs, acc, seen =>
    match digitValue radix c with
    | some v => readDigits radix cs (acc * radix + v) true
    | none => (acc, seen)

/-- Tells whether the text starts with `0x` or `0X`. -/
def startsWithHexMark : List Char → Bool
  | '0' :: 'x' :: _ => true
  | '0' :: 'X' :: _ => true
  | _ => false

/-- Global `parseInt(string)` without a radix argument; `none` is `NaN`. The result is the
exact integer (no rounding to a double, which is exact below 2^53). -/
def parseInt (s : String) : Option Int :=
  let t := s.toList.dropWhile isJsWhitespace
  let negative := t.head? = some '-'
  let t1 := if t.head? = some '-' ∨ t.head? = some '+' then t.tail else t
  let r := if startsWithHexMark t1 then readDigits 16 (t1.drop 2) 0 false
    else readDigits 10 t1 0 false
  if r.2 then some (if negative then - (r.1 : Int) else (r.1 : Int)) else none

/-- Post object as consumed by `renderPosts`: the properties the template reads. -/
structure PostView where
  id : String
  creator : String
  ipfsHash : String
  rating : String
  timestamp : String
  title : String
  content : String
  author : String
  deriving DecidableEq

/-- Comparator passed to `posts.sort`: `parseInt(b.timestamp) - parseInt(a.timestamp)`,
`none` being `NaN`. -/
def compareFn (a b : PostView) : Option Int :=
  match parseInt b.timestamp, parseInt a.timestamp with
  | some tb, some ta => some (tb - ta)
  | _, _ => none

/-- Order test used by the sort: `a` may stay before `b` unless the comparator answers a
positive number (`NaN` counts as zero). -/
def sortLe (cmp : α → α → Option Int) (a b : α) : Prop :=
  match cmp a b with
  | some d => d ≤ 0
  | none => True

instance (cmp : α → α → Option Int) : DecidableRel (sortLe cmp) := fun a b => by
  unfold sortLe
  cases cmp a b <;> infer_instance

/-- Method `Array.prototype.sort(compareFn)` as a stable insertion sort. For a consistent
comparator every conforming implementation produces this order. -/
def arraySort (cmp : α → α → Option Int) (l : List α) : List α :=
  l.insertionSort (sortLe cmp)

/-- Method `String.prototype.substring(start, end)` on the characters of the string. -/
def substring (s : String) (start stop : Nat) : String :=
  String.mk ((s.toList.take stop).drop start)

/-- Method `String.prototype.substring(start)`. -/
def substringFrom (s : String) (start : Nat) : String :=
  String.mk (s.toList.drop start)

/-- The template literal of `renderPosts` for one post. `escapeHtml` is the DOM-based
method of the class, `formatDate` is `new Date(seconds * 1000).toLocaleString()` where
`none` is an invalid date. -/
def renderPost (escapeHtml : String → String) (formatDate : Option Int → String)
    (post : PostView) : String :=
  "\n            <div class=\"post\">\n                <div class=\"post-header\">\n" ++
  "                    <h3 class=\"post-title\">" ++ escapeHtml post.title ++ "</h3>\n" ++
  "                    <div class=\"post-meta\">\n" ++
  "                        <div class=\"creator-address\">By: " ++ substring post.creator 0 6 ++
  "..." ++ substringFrom post.creator 38 ++ "</div>\n" ++
  "                        <div>Author: " ++ escapeHtml post.author ++ "</div>\n" ++
  "                        <div>" ++ formatDate (parseInt post.timestamp) ++ "</div>\n" ++
  "                        <div class=\"post-hash\">IPFS: " ++ post.ipfsHash ++ "</div>\n" ++
  "                    </div>\n                </div>\n" ++
  "                <div class=\"post-content\">" ++ escapeHtml post.content ++ "</div>\n" ++
  "                <div class=\"post-footer\">\n                    <div class=\"post-actions\">\n" ++
  "                        <button class=\"vote-btn upvote\" onclick=\"app.vote(" ++ post.id ++
  ", true)\">\n                            👍 Upvote\n                        </button>\n" ++
  "                        <button class=\"vote-btn downvote\" onclick=\"app.vote(" ++ post.id ++
  ", false)\">\n                            👎 Downvote\n                        </button>\n" ++
  "                    </div>\n                    <div class=\"post-rating\">\n" ++
  "                        Rating: " ++ post.rating ++ "\n                    </div>\n" ++
  "                </div>\n            </div>\n        "

/-- Result of `renderPosts`: the array after the in-place sort, which is the order of
rendering, and the markup assigned to `container.innerHTML`. -/
structure Rendered where
  order : List PostView
  innerHTML : String

/-- Method `renderPosts(posts)`. -/
def renderPosts (escapeHtml : String → String) (formatDate : Option Int → String)
    (posts : List PostView) : Rendered :=
  let sorted := arraySort compareFn posts
  ⟨sorted, String.join (sorted.map (renderPost escapeHtml formatDate))⟩

/-- Text made of one or more decimal digits. -/
def isDecimal (s : String) : Prop :=
  s.toList ≠ [] ∧ ∀ c ∈ s.toList, 48 ≤ c.toNat ∧ c.toNat ≤ 57

/-- Number written by a run of decimal digits. -/
def decimalValue (s : String) : Nat :=
  s.toList.foldl (fun acc c => acc * 10 + (c.toNat - 48)) 0

/-! ## Runtime model used for the content round trip

Strings are sequences of Unicode scalar values; a lone surrogate code unit is outside
the model. -/

/-- Lower-case hexadecimal digit of a number below 16. -/
def hexDigit (n : Nat) : Char :=
  if n < 10 then Char.ofNat (48 + n) else Char.ofNat (87 + n)

/-- ECMAScript `QuoteJSONString` without the surrounding quotes: the escape of one
character. -/
def escapeChar (c : Char) : List Char :=
  let n := c.toNat
  if n = 0x08 then ['\\', 'b']
  else if n = 0x09 then ['\\', 't']
  else if n = 0x0A then ['\\', 'n']
  else if n = 0x0C then ['\\', 'f']
  else if n = 0x0D then ['\\', 'r']
  else if n = 0x22 then ['\\', '"']
  else if n = 0x5C then ['\\', '\\']
  else if n < 0x20 then ['\\', 'u', '0', '0', hexDigit (n / 16), hexDigit (n % 16)]
  else [c]

/-- ECMAScript `QuoteJSONString`. -/
def quoteJSONString (s : String) : List Char :=
  '"' :: (s.toList.flatMap escapeChar ++ ['"'])

mutual
/-- ECMAScript `SerializeJSONProperty` without indentation; `none` is `undefined`. -/
def serializeJSON : JsVal → Option (List Char)
  | .undefined => none
  | .null => some ['n', 'u', 'l', 'l']
  | .bool true => some ['t', 'r', 'u', 'e']
  | .bool false => some ['f', 'a', 'l', 's', 'e']
  | .num n => some (toString n).toList
  | .str s => some (quoteJSONString s)
  | .arr items => some ('[' :: (serializeItems items ++ [']']))
  | .obj props => some ('\x7b' :: (serializeProps props true ++ ['\x7d']))
/-- Elements of an array, comma separated; `undefined` is written as `null`. -/
def serializeItems : List JsVal → List Char
  | [] => []
  | v :: rest =>
    let head := (serializeJSON v).getD ['n', 'u', 'l', 'l']
    match rest with
    | [] => head
    | _ :: _ => head ++ ',' :: serializeItems rest
/-- Members of an object, comma separated; a member whose value is `undefined` is left
out. `first` tells that no member has been written yet. -/
def serializeProps : List (String × JsVal) → Bool → List Char
  | [], _ => []
  | (k, v) :: rest, first =>
    match serializeJSON v with
    | none => serializeProps rest first
    | some text =>
      (if first then [] else [',']) ++ quoteJSONString k ++ ':' :: text ++
        serializeProps rest false
end

/-- Function `JSON.stringify(value)`. -/
def jsonStringify (v : JsVal) : Option String :=
  (serializeJSON v).map String.mk

/-- JSON insignificant whitespace. -/
def isJsonWhitespace (c : Char) : Bool :=
  c.toNat = 0x20 || c.toNat = 0x09 || c.toNat = 0x0A || c.toNat = 0x0D

/-- Value of a hexadecimal digit. -/
def hexValue (c : Char) : Option Nat :=
  let n := c.toNat
  if 48 ≤ n ∧ n ≤ 57 then some (n - 48)
  else if 97 ≤ n ∧ n ≤ 102 then some (n - 87)
  else if 65 ≤ n ∧ n ≤ 70 then some (n - 55)
  else none

/-- Code unit written by the four hexadecimal digits of a `\u` escape. -/
def hex4 (a b c d : Char) : Option Nat :=
  match hexValue a, hexValue b, hexValue c, hexValue d with
  | some x, some y, some z, some w => some (((x * 16 + y) * 16 + z) * 16 + w)
  | _, _, _, _ => none

/-- Reads the characters of a JSON string literal after its opening quote, up to and
including the closing quote: the string read and the rest of the text. `none` is a
syntax error, or a `\u` escape of a surrogate code unit. -/
def parseStringBody : List Char → Option (List Char × List Char)
  | [] => none
  | c :: rest =>
    if c = '"' then some ([], rest)
    else if c = '\\' then
      match rest with
      | [] => none
      | e :: rest1 =>
        if e = 'u' then
          match rest1 with
          | a :: b :: c2 :: d :: rest2 =>
            match hex4 a b c2 d with
            | none => none
            | some n =>
              if 0xD800 ≤ n ∧ n ≤ 0xDFFF then none
              else (parseStringBody rest2).map (fun r => (Char.ofNat n :: r.1, r.2))
          | _ => none
        else
          let plain : Option Char :=
            if e = '"' then some '"'
            else if e = '\\' then some '\\'
            else if e = '/' then some '/'
            else if e = 'b' then some (Char.ofNat 0x08)
            else if e = 'f' then some (Char.ofNat 0x0C)
            else if e = 'n' then some (Char.ofNat 0x0A)
            else if e = 'r' then some (Char.ofNat 0x0D)
            else if e = 't' then some (Char.ofNat 0x09)
            else none
          match plain with
          | none => none
          | some x => (parseStringBody rest1).map (fun r => (x :: r.1, r.2))
    else if c.toNat < 0x20 then none
    else (parseStringBody rest).map (fun r => (c :: r.1, r.2))

/-- Reads the members of an object after its opening brace, up to and including the
closing brace. Only string-valued members are read; any other value ends the parse with
an error. -/
def parseMembers : Nat → List Char → List (String × JsVal) →
    Except String (List (String × JsVal) × List Char)
  | 0, _, _ => .error "SyntaxError"
  | fuel + 1, text, acc =>
    match text.dropWhile isJsonWhitespace with
    | '"' :: t1 =>
      match parseStringBody t1 with
      | none => .error "SyntaxError"
      | some (key, t2) =>
        match t2.dropWhile isJsonWhitespace with
        | ':' :: t3 =>
          match t3.dropWhile isJsonWhitespace with
          | '"' :: t4 =>
            match parseStringBody t4 with
            | none => .error "SyntaxError"
            | some (val, t5) =>
              let acc1 := JsVal.setProp acc (String.mk key) (.str (String.mk val))
              match t5.dropWhile isJsonWhitespace with
              | ',' :: t6 => parseMembers fuel t6 acc1
              | '\x7d' :: t6 => .ok (acc1, t6)
              | _ => .error "SyntaxError"
          | _ => .error "value outside the modelled fragment"
        | _ => .error "SyntaxError"
    | _ => .error "SyntaxError"

/-- Function `JSON.parse(text)` on the fragment of JSON texts that are objects whose
members are strings, which is what `storePost` writes for a record of strings. Texts
outside the fragment are answered with an error, whether or not the JavaScript
function accepts them. -/
def jsonParse (text : String) : Except String JsVal :=
  match text.toList.dropWhile isJsonWhitespace with
  | '\x7b' :: t1 =>
    match t1.dropWhile isJsonWhitespace with
    | '\x7d' :: t2 =>
      if t2.dropWhile isJsonWhitespace = [] then .ok (.obj []) else .error "SyntaxError"
    | _ =>
      match parseMembers text.length t1 [] with
      | .error m => .error m
      | .ok (props, t2) =>
        if t2.dropWhile isJsonWhitespace = [] then .ok (.obj props) else .error "SyntaxError"
  | _ => .error "value outside the modelled fragment"

/-- UTF-8 bytes of one character. -/
def utf8EncodeChar (c : Char) : List Nat :=
  let n := c.toNat
  if n < 0x80 then [n]
  else if n < 0x800 then [0xC0 + n / 64, 0x80 + n % 64]
  else if n < 0x10000 then [0xE0 + n / 4096, 0x80 + n / 64 % 64, 0x80 + n % 64]
  else [0xF0 + n / 262144, 0x80 + n / 4096 % 64, 0x80 + n / 64 % 64, 0x80 + n % 64]

/-- UTF-8 encoding of a string handed to `ipfs.add`. -/
def utf8Encode (s : String) : List Nat :=
  s.toList.flatMap utf8EncodeChar

/-- State of the UTF-8 decoder: bytes needed and seen for the current character, the
code point read so far, and the bounds of the next continuation byte. -/
structure Utf8State where
  needed : Nat
  seen : Nat
  cp : Nat
  lower : Nat
  upper : Nat

/-- Decoder state between characters. -/
def Utf8State.start : Utf8State := ⟨0, 0, 0, 0x80, 0xBF⟩

/-- Decoder step for a byte met between characters. -/
def utf8Lead (b : Nat) : Utf8State × List Char :=
  if b < 0x80 then (Utf8State.start, [Char.ofNat b])
  else if 0xC2 ≤ b ∧ b ≤ 0xDF then (⟨1, 0, b % 32, 0x80, 0xBF⟩, [])
  else if 0xE0 ≤ b ∧ b ≤ 0xEF then
    (⟨2, 0, b % 16, if b = 0xE0 then 0xA0 else 0x80, if b = 0xED then 0x9F else 0xBF⟩, [])
  else if 0xF0 ≤ b ∧ b ≤ 0xF4 then
    (⟨3, 0, b % 8, if b = 0xF0 then 0x90 else 0x80, if b = 0xF4 then 0x8F else 0xBF⟩, [])
  else (Utf8State.start, [Char.ofNat 0xFFFD])

/-- Decoder step: a byte that cannot continue the current character yields U+FFFD and
is then read as the start of a new character. -/
def utf8Step (st : Utf8State) (b : Nat) : Utf8State × List Char :=
  if st.needed = 0 then utf8Lead b
  else if b < st.lower ∨ st.upper < b then
    ((utf8Lead b).1, Char.ofNat 0xFFFD :: (utf8Lead b).2)
  else if st.seen + 1 = st.needed then (Utf8State.start, [Char.ofNat (st.cp * 64 + b % 64)])
  else (⟨st.needed, st.seen + 1, st.cp * 64 + b % 64, 0x80, 0xBF⟩, [])

/-- Runs the decoder over the bytes; an unfinished character at the end yields U+FFFD. -/
def utf8DecodeFrom : Utf8State → List Nat → List Char
  | st, [] => if st.needed = 0 then [] else [Char.ofNat 0xFFFD]
  | st, b :: rest => (utf8Step st b).2 ++ utf8DecodeFrom (utf8Step st b).1 rest

/-- Method `Buffer#toString()` (UTF-8 decoding with replacement of malformed input). -/
def utf8Decode (bytes : List Nat) : String :=
  String.mk (utf8DecodeFrom Utf8State.start bytes)

/-- The runtime primitives as modelled above. -/
def ecmaRuntime : Runtime := ⟨jsonStringify, jsonParse, utf8Encode, utf8Decode⟩

/-- The content store as seen by `GET /api/posts`: the outcome of
`ipfsService.getPost(ref)` in the given server state. -/
def contentLookup (rt : Runtime) (st : ServerState) (ref : String) : Except String JsVal :=
  match st.ipfsService with
  | none => .error "TypeError"
  | some svc => (svc.getPost rt ref).1

/-- Tells whether an outcome is a failure. -/
def failed : Except String α → Bool
  | .error _ => true
  | .ok _ => false

/-- Posts array of a response body `\x7b posts \x7d`. -/
def postsOf (r : Response) : Option (List JsVal) :=
  match r.body with
  | .obj [("posts", .arr posts)] => some posts
  | _ => none

/-! ## Sample data for the scenarios -/

/-- Client of a node that holds `payload` under `cid`, accepts a write of exactly that
payload, and streams it in two chunks. -/
def sampleClient (cid : String) (payload : List Nat) : IpfsClient where
  version := .ok "0.20.0"
  add := fun bytes => if bytes = payload then .ok cid else .error "store write failed"
  cat := fun hash =>
    if hash = cid then .ok [payload.take 16, payload.drop 16] else .error "not found"

/-- The record of the publish scenario. -/
def sampleRecord : JsVal :=
  .obj [("title", .str "Hello"), ("content", .str "World"), ("author", .str "Alice")]

/-- The record that `POST /api/createPost` writes for the publish scenario. -/
def samplePostData : JsVal :=
  mkPostData (.str "Hello") (.str "World") (.str "Alice") "2024-01-01T00:00:00.000Z"

/-- UTF-8 bytes of the serialized value. -/
def payloadOf (v : JsVal) : List Nat :=
  utf8Encode ((jsonStringify v).getD "")

/-- The ledger entry of the publish scenario: post 1 with rating 0, anchored to `Qm123`. -/
def sampleEntry : LedgerEntry :=
  ⟨1, "0x70997970C51812dc3A010C7d01b50e0d17dc79C8", "Qm123", 0, 1700000000⟩

/-- A ledger entry whose content reference is unknown to the sample node. -/
def orphanEntry : LedgerEntry :=
  ⟨2, "0x3C44CdDdB6a900fa2b585dd299e03d12FA4293BC", "QmMissing", 3, 1700000100⟩

/-- Contract handle whose ledger holds the given entries and confirms every post. -/
def sampleContract (entries : List LedgerEntry) : Contract where
  address := "0x5FbDB2315678afecb367f032d93F642f64180aa3"
  getAllPosts := .ok entries
  createPost := fun _ => .ok (.ok ())

/-- Server state with the contract connected and the sample node holding `v` under
`Qm123`. -/
def sampleServer (entries : List LedgerEntry) (v : JsVal) : ServerState :=
  ⟨some (sampleContract entries), true, some ⟨some (sampleClient "Qm123" (payloadOf v))⟩⟩

/-- Startup in which the IPFS node refuses the connection test. -/
def nodeDownWorld : StartupWorld where
  ipfsCreate := .ok ⟨.error "ECONNREFUSED", fun _ => .error "ECONNREFUSED",
    fun _ => .error "ECONNREFUSED"⟩
  newProvider := .ok ()
  contractInfoFile := some (.ok ⟨"0x5FbDB2315678afecb367f032d93F642f64180aa3", "[]"⟩)
  newContract := fun info => .ok ⟨info.address, .ok [], fun _ => .ok (.ok ())⟩

/-- Startup with a reachable node and no `contract-info.json`. -/
def noContractWorld : StartupWorld where
  ipfsCreate := .ok (sampleClient "Qm123" (payloadOf samplePostData))
  newProvider := .ok ()
  contractInfoFile := none
  newContract := fun info => .ok ⟨info.address, .ok [], fun _ => .ok (.ok ())⟩

/-- Frontend with the wallet connected. -/
def sampleApp : AppState := ⟨some (sampleContract [])⟩

/-- The form of the publish scenario. -/
def sampleForm : FormInput := ⟨"Hello", " World ", "Alice"⟩

/-- Two posts as listed by the backend, the older one first. -/
def samplePosts : List PostView :=
  [⟨"1", "0x70997970C51812dc3A010C7d01b50e0d17dc79C8", "Qm123", "0", "1700000000",
      "Hello", "World", "Alice"⟩,
    ⟨"2", "0x3C44CdDdB6a900fa2b585dd299e03d12FA4293BC", "Qm456", "3", "1700000100",
      "Second", "Later post", "Bob"⟩]

/-- Backend started without a contract-info file, serving with the modelled runtime. -/
def sampleBackend : Backend :=
  ⟨ecmaRuntime, (initializeServices noContractWorld ServerState.initial).1,
    "2024-01-01T00:00:00.000Z"⟩

/-- Backend whose IPFS node was down at startup and still is. -/
def nodeDownBackend : Backend :=
  ⟨ecmaRuntime, (initializeServices nodeDownWorld ServerState.initial).1,
    "2024-01-01T00:00:00.000Z"⟩

/-! ## Theorems -/

theorem findProp_setProp (o : List (String × JsVal)) (k key : String) (v : JsVal)
    (h : (o.map Prod.fst).Nodup) :
    JsVal.findProp (JsVal.setProp o k v) key
      = if k = key then some v else JsVal.findProp o key := by
  induction o with
  | nil => simp [JsVal.setProp, JsVal.findProp]
  | cons p rest ih =>
    obtain ⟨k', v'⟩ := p
    simp only [List.map_cons, List.nodup_cons] at h
    have hnone : ∀ key', key' = k' → JsVal.findProp rest key' = none := by
      intro key' hk
      subst hk
      have hn := h.1
      clear ih h
      induction rest with
      | nil => rfl
      | cons q rest' ih' =>
        obtain ⟨k2, v2⟩ := q
        simp only [List.map_cons, List.mem_cons, not_or] at hn
        simp [JsVal.findProp, ih' hn.2, Ne.symm hn.1]
    by_cases hk : k' = k
    · subst hk
      simp only [JsVal.setProp, if_true, JsVal.findProp]
      by_cases hkey : k' = key
      · subst hkey
        simp [hnone k' rfl]
      · simp [hkey]
    · simp only [JsVal.setProp, hk, if_false, JsVal.findProp, ih h.2]
      by_cases hkey : k = key
      · subst hkey
        simp
      · simp [hkey]

theorem setProp_keys_nodup (o : List (String × JsVal)) (k : String) (v : JsVal)
    (h : (o.map Prod.fst).Nodup) : ((JsVal.setProp o k v).map Prod.fst).Nodup := by
  induction o with
  | nil => simp [JsVal.setProp]
  | cons p rest ih =>
    obtain ⟨k', v'⟩ := p
    simp only [List.map_cons, List.nodup_cons] at h
    by_cases hk : k' = k
    · simp only [JsVal.setProp, hk, if_true, List.map_cons, List.nodup_cons]
      exact ⟨hk ▸ h.1, h.2⟩
    · simp only [JsVal.setProp, hk, if_false, List.map_cons, List.nodup_cons]
      refine ⟨?_, ih h.2⟩
      intro hmem
      have hsub : ∀ (l : List (String × JsVal)) (x : String),
          x ∈ (JsVal.setProp l k v).map Prod.fst → x = k ∨ x ∈ l.map Prod.fst := by
        intro l
        induction l with
        | nil => intro x hx; simpa [JsVal.setProp] using hx
        | cons q l' ihl =>
          intro x hx
          obtain ⟨k2, v2⟩ := q
          by_cases h2 : k2 = k
          · simp only [JsVal.setProp, h2, if_true, List.map_cons, List.mem_cons] at hx
            rcases hx with hx | hx
            · exact Or.inl hx
            · exact Or.inr (by simp [hx])
          · simp only [JsVal.setProp, h2, if_false, List.map_cons, List.mem_cons] at hx
            rcases hx with hx | hx
            · exact Or.inr (by simp [hx])
            · rcases ihl x hx with h3 | h3
              · exact Or.inl h3
              · exact Or.inr (by simp [h3])
      rcases hsub rest k' hmem with h3 | h3
      · exact hk h3
      · exact h.1 h3

theorem findProp_foldl_setProp (src base : List (String × JsVal)) (key : String)
    (h : (base.map Prod.fst).Nodup) :
    JsVal.findProp (src.foldl (fun o kv => JsVal.setProp o kv.1 kv.2) base) key
      = match JsVal.findProp src key with
        | some w => some w
        | none => JsVal.findProp base key := by
  induction src generalizing base with
  | nil => simp [JsVal.findProp]
  | cons p rest ih =>
    obtain ⟨k, v⟩ := p
    simp only [List.foldl_cons, JsVal.findProp]
    rw [ih _ (setProp_keys_nodup base k v h), findProp_setProp base k key v h]
    cases JsVal.findProp rest key with
    | some w => rfl
    | none => by_cases hk : k = key <;> simp [hk]

theorem ledgerFields_keys (post : LedgerEntry) :
    (ledgerFields post).map Prod.fst = ["id", "creator", "ipfsHash", "rating", "timestamp"] :=
  rfl

theorem ledgerFields_nodup (post : LedgerEntry) : ((ledgerFields post).map Prod.fst).Nodup := by
  rw [ledgerFields_keys]
  decide

theorem getApiPosts_ok (rt : Runtime) (st : ServerState) (c : Contract)
    (entries : List LedgerEntry) (hc : st.contract = some c)
    (hall : c.getAllPosts = .ok entries) :
    getApiPosts rt st
      = (⟨200, .obj [("posts", .arr (entries.map (fun e => (fetchPost rt st e).1)))]⟩,
          .getAllPosts :: ((entries.map (fetchPost rt st)).map Prod.snd).flatten) := by
  simp [getApiPosts, hc, hall, List.map_map, Function.comp_def]

theorem fetchPost_of_failed (rt : Runtime) (st : ServerState) (e : LedgerEntry)
    (h : failed (contentLookup rt st e.ipfsHash) = true) :
    (fetchPost rt st e).1 = placeholderPost e := by
  unfold contentLookup at h
  unfold fetchPost
  cases hs : st.ipfsService with
  | none => rfl
  | some svc =>
    rw [hs] at h
    simp only at h
    cases hr : (svc.getPost rt e.ipfsHash).1 with
    | error m => simp [hr]
    | ok v => rw [hr] at h; simp [failed] at h

theorem fetchPost_of_ok (rt : Runtime) (st : ServerState) (e : LedgerEntry) (r : JsVal)
    (h : contentLookup rt st e.ipfsHash = .ok r) :
    (fetchPost rt st e).1 = mergedPost e r ∧
      ∀ eff ∈ (fetchPost rt st e).2, eff.isConsoleError = false := by
  unfold contentLookup at h
  unfold fetchPost
  cases hs : st.ipfsService with
  | none => rw [hs] at h; simp at h
  | some svc =>
    rw [hs] at h
    simp only at h
    simp only [h]
    refine ⟨trivial, ?_⟩
    intro eff heff
    simp only [List.mem_cons] at heff
    rcases heff with heff | heff
    · subst heff; rfl
    · revert heff h
      unfold IpfsService.getPost
      cases svc.ipfs with
      | none => intro h; simp at h
      | some client =>
        simp only
        cases client.cat e.ipfsHash with
        | error m => intro h; simp at h
        | ok chunks =>
          simp only
          cases rt.jsonParse (rt.utf8Decode chunks.flatten) with
          | error m => intro h; simp at h
          | ok v =>
            intro _ heff
            simp only [List.mem_singleton] at heff
            subst heff
            rfl

theorem failed_eq_false {α : Type} (x : Except String α) (h : failed x = false) :
    ∃ r, x = .ok r := by
  cases x with
  | error m => simp [failed] at h
  | ok r => exact ⟨r, rfl⟩

theorem countP_eq_one {α : Type} (p : α → Bool) (l : List α) (h : l.countP p = 1) :
    ∃ (i : Nat) (a : α), l[i]? = some a ∧ p a = true ∧
      ∀ (j : Nat) (b : α), j ≠ i → l[j]? = some b → p b = false := by
  induction l with
  | nil => simp at h
  | cons x xs ih =>
    by_cases hx : p x = true
    · rw [List.countP_cons_of_pos _ _ hx] at h
      have h0 : xs.countP p = 0 := by omega
      rw [List.countP_eq_zero] at h0
      refine ⟨0, x, by simp, hx, ?_⟩
      intro j b hj hb
      cases j with
      | zero => exact absurd rfl hj
      | succ j' =>
        simp only [List.getElem?_cons_succ] at hb
        have hmem : b ∈ xs := List.getElem?_mem hb
        simpa using h0 b hmem
    · rw [List.countP_cons_of_neg _ _ hx] at h
      obtain ⟨i, a, hia, hpa, hrest⟩ := ih h
      refine ⟨i + 1, a, by simpa using hia, hpa, ?_⟩
      intro j b hj hb
      cases j with
      | zero =>
        simp only [List.getElem?_cons_zero, Option.some.injEq] at hb
        subst hb
        simpa using hx
      | succ j' =>
        simp only [List.getElem?_cons_succ] at hb
        exact hrest j' b (by omega) hb

/-- C1: whenever `getAllPosts` returned `entries`, `GET /api/posts` answers 200 with one
post per entry; an entry whose content lookup fails is listed with its ledger fields and
the fixed placeholder title, content and author; and when exactly one lookup fails, one
post is the placeholder object and every other post is merged from fetched content. -/
theorem getApiPosts_degrades_failed_lookups (rt : Runtime) (st : ServerState) (c : Contract)
    (entries : List LedgerEntry) (hc : st.contract = some c)
    (hall : c.getAllPosts = .ok entries) :
    (getApiPosts rt st).1.status = 200 ∧
    ∃ posts, postsOf (getApiPosts rt st).1 = some posts ∧
      posts.length = entries.length ∧
      (∀ (i : Nat) (e : LedgerEntry), entries[i]? = some e →
        failed (contentLookup rt st e.ipfsHash) = true →
        posts[i]? = some (.obj [("id", .str (toString e.id)), ("creator", .str e.creator),
          ("ipfsHash", .str e.ipfsHash), ("rating", .str (toString e.rating)),
          ("timestamp", .str (toString e.timestamp)),
          ("title", .str "Error loading content"),
          ("content", .str "Could not load post content from IPFS"),
          ("author", .str "Unknown")])) ∧
      (entries.countP (fun e => failed (contentLookup rt st e.ipfsHash)) = 1 →
        ∃ (i : Nat) (e : LedgerEntry), entries[i]? = some e ∧
          posts[i]? = some (placeholderPost e) ∧
          ∀ (j : Nat) (e' : LedgerEntry), j ≠ i → entries[j]? = some e' →
            ∃ r, contentLookup rt st e'.ipfsHash = .ok r ∧
              posts[j]? = some (mergedPost e' r)) := by
  rw [getApiPosts_ok rt st c entries hc hall]
  refine ⟨rfl, entries.map (fun e => (fetchPost rt st e).1), rfl, by simp, ?_, ?_⟩
  · intro i e hi hf
    rw [List.getElem?_map, hi]
    simp only [Option.map_some']
    rw [fetchPost_of_failed rt st e hf]
    rfl
  · intro hone
    obtain ⟨i, e, hi, hf, hrest⟩ := countP_eq_one _ entries hone
    refine ⟨i, e, hi, ?_, ?_⟩
    · rw [List.getElem?_map, hi]
      simp only [Option.map_some']
      rw [fetchPost_of_failed rt st e hf]
    · intro j e' hj hje
      obtain ⟨r, hr⟩ := failed_eq_false _ (hrest j e' hj hje)
      refine ⟨r, hr, ?_⟩
      rw [List.getElem?_map, hje]
      simp only [Option.map_some']
      rw [(fetchPost_of_ok rt st e' r hr).1]

/-- Scenario for C1: a ledger of two entries, the second anchored to a reference the node
does not know; the listing answers 200 with the merged first post and the placeholder
for the second. -/
theorem getApiPosts_degrades_failed_lookups_witness :
    (sampleServer [sampleEntry, orphanEntry] sampleRecord).contract
      = some (sampleContract [sampleEntry, orphanEntry]) ∧
    (sampleContract [sampleEntry, orphanEntry]).getAllPosts = .ok [sampleEntry, orphanEntry] ∧
    failed (contentLookup ecmaRuntime (sampleServer [sampleEntry, orphanEntry] sampleRecord)
      orphanEntry.ipfsHash) = true ∧
    (getApiPosts ecmaRuntime (sampleServer [sampleEntry, orphanEntry] sampleRecord)).1.status
      = 200 ∧
    postsOf (getApiPosts ecmaRuntime (sampleServer [sampleEntry, orphanEntry] sampleRecord)).1
      = some [mergedPost sampleEntry sampleRecord, placeholderPost orphanEntry] :=
  ⟨rfl, rfl, rfl,
    (getApiPosts_degrades_failed_lookups ecmaRuntime
      (sampleServer [sampleEntry, orphanEntry] sampleRecord)
      (sampleContract [sampleEntry, orphanEntry]) [sampleEntry, orphanEntry] rfl rfl).1,
    rfl⟩

theorem mergedPost_field (post : LedgerEntry) (props : List (String × JsVal)) (key : String) :
    (mergedPost post (.obj props)).field key
      = match JsVal.findProp props key with
        | some w => w
        | none => (JsVal.obj (ledgerFields post)).field key := by
  simp only [mergedPost, JsVal.field, JsVal.spreadInto, JsVal.ownEnumerable]
  rw [findProp_foldl_setProp props _ key (ledgerFields_nodup post)]
  cases JsVal.findProp props key <;> rfl

theorem ledgerFields_findProp_none (post : LedgerEntry) (key : String)
    (h : key ∉ ["id", "creator", "ipfsHash", "rating", "timestamp"]) :
    JsVal.findProp (ledgerFields post) key = none := by
  simp only [List.mem_cons, List.mem_singleton, not_or, List.not_mem_nil, not_false_eq_true,
    and_true] at h
  obtain ⟨h1, h2, h3, h4, h5⟩ := h
  simp [ledgerFields, JsVal.findProp, Ne.symm h1, Ne.symm h2, Ne.symm h3, Ne.symm h4,
    Ne.symm h5]

theorem mergedPost_content_field (post : LedgerEntry) (props : List (String × JsVal))
    (key : String) (h : key ∉ ["id", "creator", "ipfsHash", "rating", "timestamp"]) :
    (mergedPost post (.obj props)).field key = (JsVal.obj props).field key := by
  rw [mergedPost_field]
  simp only [JsVal.field, ledgerFields_findProp_none post key h]
  cases JsVal.findProp props key <;> rfl

/-- C3: when every entry's content reference resolves to a record, `GET /api/posts`
answers 200 with one post per entry, the post at each index carries the title, content
and author of the record stored under that entry's reference, and the `catch` branch
that builds the placeholder never runs (no error is logged). -/
theorem getApiPosts_all_resolved (rt : Runtime) (st : ServerState) (c : Contract)
    (entries : List LedgerEntry) (hc : st.contract = some c)
    (hall : c.getAllPosts = .ok entries)
    (hres : ∀ e ∈ entries, ∃ props, contentLookup rt st e.ipfsHash = .ok (.obj props)) :
    (getApiPosts rt st).1.status = 200 ∧
    (∀ eff ∈ (getApiPosts rt st).2, eff.isConsoleError = false) ∧
    ∃ posts, postsOf (getApiPosts rt st).1 = some posts ∧
      posts.length = entries.length ∧
      ∀ (i : Nat) (e : LedgerEntry), entries[i]? = some e →
        ∃ (p : JsVal) (props : List (String × JsVal)), posts[i]? = some p ∧
          contentLookup rt st e.ipfsHash = .ok (.obj props) ∧
          p = mergedPost e (.obj props) ∧
          p.field "title" = (JsVal.obj props).field "title" ∧
          p.field "content" = (JsVal.obj props).field "content" ∧
          p.field "author" = (JsVal.obj props).field "author" := by
  rw [getApiPosts_ok rt st c entries hc hall]
  refine ⟨rfl, ?_, entries.map (fun e => (fetchPost rt st e).1), rfl, by simp, ?_⟩
  · intro eff heff
    simp only [List.mem_cons, List.mem_flatten, List.mem_map, exists_exists_and_eq_and] at heff
    rcases heff with heff | ⟨e, he, heff⟩
    · subst heff; rfl
    · obtain ⟨props, hp⟩ := hres e he
      exact (fetchPost_of_ok rt st e _ hp).2 eff heff
  · intro i e hi
    obtain ⟨props, hp⟩ := hres e (List.getElem?_mem hi)
    refine ⟨mergedPost e (.obj props), props, ?_, hp, rfl, ?_, ?_, ?_⟩
    · rw [List.getElem?_map, hi]
      simp only [Option.map_some']
      rw [(fetchPost_of_ok rt st e _ hp).1]
    · exact mergedPost_content_field e props "title" (by decide)
    · exact mergedPost_content_field e props "content" (by decide)
    · exact mergedPost_content_field e props "author" (by decide)

/-- Scenario for C3: the record `Hello / World / Alice` stored under `Qm123` and anchored
as post 1 with rating 0 is listed with exactly those values. -/
theorem getApiPosts_all_resolved_witness :
    contentLookup ecmaRuntime (sampleServer [sampleEntry] sampleRecord) sampleEntry.ipfsHash
      = .ok sampleRecord ∧
    (getApiPosts ecmaRuntime (sampleServer [sampleEntry] sampleRecord)).1.status = 200 ∧
    postsOf (getApiPosts ecmaRuntime (sampleServer [sampleEntry] sampleRecord)).1
      = some [.obj [("id", .str "1"),
          ("creator", .str "0x70997970C51812dc3A010C7d01b50e0d17dc79C8"),
          ("ipfsHash", .str "Qm123"), ("rating", .str "0"), ("timestamp", .str "1700000000"),
          ("title", .str "Hello"), ("content", .str "World"), ("author", .str "Alice")]] :=
  ⟨rfl,
    (getApiPosts_all_resolved ecmaRuntime (sampleServer [sampleEntry] sampleRecord)
      (sampleContract [sampleEntry]) [sampleEntry] rfl rfl
      (fun e he => by
        rw [List.mem_singleton] at he
        subst he
        exact ⟨_, rfl⟩)).1,
    rfl⟩

/-! ### Runtime round trips -/

theorem char_valid (c : Char) : c.toNat < 0xD800 ∨ (0xDFFF < c.toNat ∧ c.toNat < 0x110000) := by
  have := c.valid
  simp only [UInt32.isValidChar, Nat.isValidChar] at this
  exact this

theorem utf8Step_start (b : Nat) : utf8Step Utf8State.start b = utf8Lead b := by
  simp [utf8Step, Utf8State.start]

theorem utf8DecodeFrom_cons (st : Utf8State) (b : Nat) (rest : List Nat) :
    utf8DecodeFrom st (b :: rest) = (utf8Step st b).2 ++ utf8DecodeFrom (utf8Step st b).1 rest :=
  rfl

theorem utf8DecodeFrom_encodeChar (c : Char) (rest : List Nat) :
    utf8DecodeFrom Utf8State.start (utf8EncodeChar c ++ rest)
      = c :: utf8DecodeFrom Utf8State.start rest := by
  have hv := char_valid c
  have hc := Char.ofNat_toNat c
  unfold utf8EncodeChar
  simp only
  generalize c.toNat = n at hv hc
  by_cases h1 : n < 0x80
  · rw [if_pos h1]
    simp only [List.singleton_append, utf8DecodeFrom_cons, utf8Step_start]
    simp [utf8Lead, h1, hc]
  · rw [if_neg h1]
    by_cases h2 : n < 0x800
    · rw [if_pos h2]
      have e1 : utf8Lead (0xC0 + n / 64) = (⟨1, 0, n / 64, 0x80, 0xBF⟩, []) := by
        unfold utf8Lead
        rw [if_neg (by omega), if_pos (by omega)]
        congr 2
        omega
      have e2 : utf8Step ⟨1, 0, n / 64, 0x80, 0xBF⟩ (0x80 + n % 64)
          = (Utf8State.start, [Char.ofNat n]) := by
        unfold utf8Step
        rw [if_neg (by simp), if_neg (by simp only; omega), if_pos (by simp)]
        congr 3
        simp only
        omega
      simp only [List.cons_append, List.nil_append, utf8DecodeFrom_cons, utf8Step_start, e1, e2,
        hc, List.singleton_append]
    · rw [if_neg h2]
      by_cases h3 : n < 0x10000
      · rw [if_pos h3]
        have e1 : utf8Lead (0xE0 + n / 4096) = (⟨2, 0, n / 4096,
            if 0xE0 + n / 4096 = 0xE0 then 0xA0 else 0x80,
            if 0xE0 + n / 4096 = 0xED then 0x9F else 0xBF⟩, []) := by
          unfold utf8Lead
          rw [if_neg (by omega), if_neg (by omega), if_pos (by omega)]
          congr 2
          omega
        have e2 : utf8Step ⟨2, 0, n / 4096,
            if 0xE0 + n / 4096 = 0xE0 then 0xA0 else 0x80,
            if 0xE0 + n / 4096 = 0xED then 0x9F else 0xBF⟩ (0x80 + n / 64 % 64)
            = (⟨2, 1, n / 64, 0x80, 0xBF⟩, []) := by
          unfold utf8Step
          rw [if_neg (by simp), if_neg (by simp only; split_ifs <;> omega), if_neg (by simp)]
          congr 2
          simp only
          omega
        have e3 : utf8Step ⟨2, 1, n / 64, 0x80, 0xBF⟩ (0x80 + n % 64)
            = (Utf8State.start, [Char.ofNat n]) := by
          unfold utf8Step
          rw [if_neg (by simp), if_neg (by simp only; omega), if_pos (by simp)]
          congr 3
          simp only
          omega
        simp only [List.cons_append, List.nil_append, utf8DecodeFrom_cons, utf8Step_start, e1,
          e2, e3, hc, List.singleton_append]
      · rw [if_neg h3]
        have e1 : utf8Lead (0xF0 + n / 262144) = (⟨3, 0, n / 262144,
            if 0xF0 + n / 262144 = 0xF0 then 0x90 else 0x80,
            if 0xF0 + n / 262144 = 0xF4 then 0x8F else 0xBF⟩, []) := by
          unfold utf8Lead
          rw [if_neg (by omega), if_neg (by omega), if_neg (by omega), if_pos (by omega)]
          congr 2
          omega
        have e2 : utf8Step ⟨3, 0, n / 262144,
            if 0xF0 + n / 262144 = 0xF0 then 0x90 else 0x80,
            if 0xF0 + n / 262144 = 0xF4 then 0x8F else 0xBF⟩ (0x80 + n / 4096 % 64)
            = (⟨3, 1, n / 4096, 0x80, 0xBF⟩, []) := by
          unfold utf8Step
          rw [if_neg (by simp), if_neg (by simp only; split_ifs <;> omega), if_neg (by simp)]
          congr 2
          simp only
          omega
        have e3 : utf8Step ⟨3, 1, n / 4096, 0x80, 0xBF⟩ (0x80 + n / 64 % 64)
            = (⟨3, 2, n / 64, 0x80, 0xBF⟩, []) := by
          unfold utf8Step
          rw [if_neg (by simp), if_neg (by simp only; omega), if_neg (by simp)]
          congr 2
          simp only
          omega
        have e4 : utf8Step ⟨3, 2, n / 64, 0x80, 0xBF⟩ (0x80 + n % 64)
            = (Utf8State.start, [Char.ofNat n]) := by
          unfold utf8Step
          rw [if_neg (by simp), if_neg (by simp only; omega), if_pos (by simp)]
          congr 3
          simp only
          omega
        simp only [List.cons_append, List.nil_append, utf8DecodeFrom_cons, utf8Step_start, e1,
          e2, e3, e4, hc, List.singleton_append]

theorem utf8DecodeFrom_encode (cs : List Char) :
    utf8DecodeFrom Utf8State.start (cs.flatMap utf8EncodeChar) = cs := by
  induction cs with
  | nil => rfl
  | cons c rest ih => rw [List.flatMap_cons, utf8DecodeFrom_encodeChar, ih]

theorem utf8Decode_utf8Encode (s : String) : utf8Decode (utf8Encode s) = s := by
  simp [utf8Decode, utf8Encode, utf8DecodeFrom_encode]

theorem parseStringBody_short (e x : Char) (tail : List Char) (hu : e ≠ 'u')
    (hx : (if e = '"' then some '"'
            else if e = '\\' then some '\\'
            else if e = '/' then some '/'
            else if e = 'b' then some (Char.ofNat 0x08)
            else if e = 'f' then some (Char.ofNat 0x0C)
            else if e = 'n' then some (Char.ofNat 0x0A)
            else if e = 'r' then some (Char.ofNat 0x0D)
            else if e = 't' then some (Char.ofNat 0x09)
            else none) = some x) :
    parseStringBody ('\\' :: e :: tail)
      = (parseStringBody tail).map (fun r => (x :: r.1, r.2)) := by
  rw [parseStringBody.eq_def]
  simp only [if_neg hu, hx]
  simp

theorem parseStringBody_plain (c : Char) (tail : List Char) (hq : c ≠ '"') (hb : c ≠ '\\')
    (hlow : ¬ c.toNat < 0x20) :
    parseStringBody (c :: tail) = (parseStringBody tail).map (fun r => (c :: r.1, r.2)) := by
  rw [parseStringBody.eq_def]
  simp only [if_neg hq, if_neg hb, if_neg hlow]

theorem parseStringBody_closing (rest : List Char) :
    parseStringBody ('"' :: rest) = some ([], rest) := by
  rw [parseStringBody.eq_def]
  simp

theorem escapeChar_control (k : Nat) (hk : k < 0x20) (tail : List Char) :
    parseStringBody (escapeChar (Char.ofNat k) ++ tail)
      = (parseStringBody tail).map (fun r => (Char.ofNat k :: r.1, r.2)) := by
  interval_cases k <;>
    first
    | rfl
    | exact parseStringBody_short _ _ tail (by decide) (by decide)

theorem parseStringBody_escapeChar (c : Char) (tail : List Char) :
    parseStringBody (escapeChar c ++ tail)
      = (parseStringBody tail).map (fun r => (c :: r.1, r.2)) := by
  by_cases hlow : c.toNat < 0x20
  · have h := escapeChar_control c.toNat hlow tail
    rwa [Char.ofNat_toNat] at h
  · by_cases hq : c = '"'
    · subst hq
      exact parseStringBody_short _ _ tail (by decide) (by decide)
    · by_cases hb : c = '\\'
      · subst hb
        exact parseStringBody_short _ _ tail (by decide) (by decide)
      · have hq' : c.toNat ≠ 0x22 := fun h => hq (by
          have := congrArg Char.ofNat h
          rwa [Char.ofNat_toNat] at this)
        have hb' : c.toNat ≠ 0x5C := fun h => hb (by
          have := congrArg Char.ofNat h
          rwa [Char.ofNat_toNat] at this)
        have he : escapeChar c = [c] := by
          unfold escapeChar
          simp only
          rw [if_neg (by omega), if_neg (by omega), if_neg (by omega), if_neg (by omega),
            if_neg (by omega), if_neg hq', if_neg hb', if_neg hlow]
        rw [he, List.singleton_append, parseStringBody_plain c tail hq hb hlow]

theorem parseStringBody_quote (cs rest : List Char) :
    parseStringBody (cs.flatMap escapeChar ++ '"' :: rest) = some (cs, rest) := by
  induction cs with
  | nil => exact parseStringBody_closing rest
  | cons c tail ih =>
    rw [List.flatMap_cons, List.append_assoc, parseStringBody_escapeChar, ih]
    rfl

theorem serializeProps_str (k s : String) (rest : List (String × JsVal)) (first : Bool) :
    serializeProps ((k, .str s) :: rest) first
      = (if first then [] else [',']) ++ quoteJSONString k ++ ':' :: quoteJSONString s ++
          serializeProps rest false := by
  simp [serializeProps, serializeJSON]

theorem serializeProps_length (rest : List (String × JsVal)) (first : Bool)
    (hs : ∀ kv ∈ rest, ∃ s, kv.2 = JsVal.str s) :
    rest.length ≤ (serializeProps rest first).length := by
  induction rest generalizing first with
  | nil => simp
  | cons p tail ih =>
    obtain ⟨k, v⟩ := p
    obtain ⟨s, hv⟩ := hs (k, v) (List.mem_cons_self _ _)
    simp only at hv
    subst hv
    rw [serializeProps_str]
    have := ih false (fun kv hkv => hs kv (List.mem_cons_of_mem _ hkv))
    simp only [List.length_append, List.length_cons, quoteJSONString]
    omega

theorem parseMembers_serialized (rest : List (String × JsVal)) (k s : String) (fuel : Nat)
    (acc : List (String × JsVal)) (tail : List Char)
    (hs : ∀ kv ∈ rest, ∃ s, kv.2 = JsVal.str s) (hfuel : rest.length < fuel) :
    parseMembers fuel
        (quoteJSONString k ++ ':' :: quoteJSONString s ++ serializeProps rest false ++
          '\x7d' :: tail) acc
      = .ok (rest.foldl (fun o kv => JsVal.setProp o kv.1 kv.2) (JsVal.setProp acc k (.str s)),
          tail) := by
  induction rest generalizing k s fuel acc with
  | nil =>
    cases fuel with
    | zero => omega
    | succ f =>
      simp only [quoteJSONString, List.cons_append, List.append_assoc, serializeProps,
        List.nil_append, List.singleton_append, List.foldl_nil]
      rw [parseMembers]
      simp [isJsonWhitespace, parseStringBody_quote]
  | cons p rest' ih =>
    obtain ⟨k2, v2⟩ := p
    obtain ⟨s2, hv⟩ := hs (k2, v2) (List.mem_cons_self _ _)
    simp only at hv
    subst hv
    cases fuel with
    | zero => omega
    | succ f =>
      have hrec := ih k2 s2 f (JsVal.setProp acc k (.str s))
        (fun kv hkv => hs kv (List.mem_cons_of_mem _ hkv))
        (by simp only [List.length_cons] at hfuel; omega)
      rw [serializeProps_str]
      simp only [Bool.false_eq_true, if_false, List.foldl_cons]
      rw [← hrec]
      simp only [quoteJSONString, List.cons_append, List.append_assoc, List.nil_append,
        List.singleton_append]
      rw [parseMembers]
      simp [isJsonWhitespace, parseStringBody_quote]

theorem setProp_of_not_mem (acc : List (String × JsVal)) (k : String) (v : JsVal)
    (h : k ∉ acc.map Prod.fst) : JsVal.setProp acc k v = acc ++ [(k, v)] := by
  induction acc with
  | nil => rfl
  | cons p rest ih =>
    obtain ⟨k', v'⟩ := p
    simp only [List.map_cons, List.mem_cons, not_or] at h
    simp [JsVal.setProp, Ne.symm h.1, ih h.2]

theorem foldl_setProp_of_nodup (props acc : List (String × JsVal))
    (h : ((acc ++ props).map Prod.fst).Nodup) :
    props.foldl (fun o kv => JsVal.setProp o kv.1 kv.2) acc = acc ++ props := by
  induction props generalizing acc with
  | nil => simp
  | cons p rest ih =>
    obtain ⟨k, v⟩ := p
    have hk : k ∉ acc.map Prod.fst := by
      simp only [List.map_append, List.map_cons, List.nodup_append, List.nodup_cons] at h
      intro hmem
      exact h.2.2 hmem (List.mem_cons_self _ _)
    simp only [List.foldl_cons]
    rw [setProp_of_not_mem acc k v hk, ih (acc ++ [(k, v)]) (by simpa using h)]
    simp

theorem jsonParse_of_members (text : String) (t1 : List Char)
    (props : List (String × JsVal)) (h1 : text.toList = '\x7b' :: '"' :: t1)
    (h2 : parseMembers text.length ('"' :: t1) [] = .ok (props, [])) :
    jsonParse text = .ok (.obj props) := by
  unfold jsonParse
  rw [h1]
  simp [isJsonWhitespace, h2]

theorem jsonParse_jsonStringify (props : List (String × JsVal))
    (hs : ∀ kv ∈ props, ∃ s, kv.2 = JsVal.str s) (hk : (props.map Prod.fst).Nodup) :
    ∃ text, jsonStringify (.obj props) = some text ∧ jsonParse text = .ok (.obj props) := by
  refine ⟨_, rfl, ?_⟩
  cases props with
  | nil => simp [serializeJSON, serializeProps, jsonParse, isJsonWhitespace]
  | cons p rest =>
    obtain ⟨k, v⟩ := p
    obtain ⟨s, hv⟩ := hs (k, v) (List.mem_cons_self _ _)
    simp only at hv
    subst hv
    have hrest : ∀ kv ∈ rest, ∃ s, kv.2 = JsVal.str s :=
      fun kv hkv => hs kv (List.mem_cons_of_mem _ hkv)
    have hlen := serializeProps_length rest false hrest
    have hfold := foldl_setProp_of_nodup rest [(k, .str s)] (by simpa using hk)
    have htext : (String.mk ('\x7b' :: (serializeProps ((k, .str s) :: rest) true ++
        ['\x7d']))).toList
        = '\x7b' :: '"' :: (k.toList.flatMap escapeChar ++ '"' :: ':' :: quoteJSONString s ++
            serializeProps rest false ++ ['\x7d']) := by
      rw [serializeProps_str]
      simp [quoteJSONString]
    refine jsonParse_of_members _ _ _ htext ?_
    have hpm := parseMembers_serialized rest k s
      (String.mk ('\x7b' :: (serializeProps ((k, .str s) :: rest) true ++ ['\x7d']))).length
      [] [] hrest (by
        rw [serializeProps_str]
        simp only [String.length, List.length_cons, List.length_append, quoteJSONString]
        omega)
    simp only [JsVal.setProp] at hpm
    rw [hfold] at hpm
    simpa [quoteJSONString] using hpm

/-- C5: for a record whose title, content, author and timestamp are strings and a store
that returns under an identifier exactly the bytes added under it, `storePost` hands
the serialized record to the store and answers whatever identifier the store answers,
and `getPost` of that identifier returns the original record. -/
theorem getPost_storePost_roundtrip (client : IpfsClient)
    (title content author timestamp : String)
    (hstore : ∀ bytes cid, client.add bytes = .ok cid →
      ∃ chunks, client.cat cid = .ok chunks ∧ chunks.flatten = bytes) :
    ∃ text, jsonStringify (.obj [("title", .str title), ("content", .str content),
        ("author", .str author), ("timestamp", .str timestamp)]) = some text ∧
      ((IpfsService.mk (some client)).storePost ecmaRuntime
        (.obj [("title", .str title), ("content", .str content),
          ("author", .str author), ("timestamp", .str timestamp)])).1
        = client.add (utf8Encode text) ∧
      ∀ cid, client.add (utf8Encode text) = .ok cid →
        ((IpfsService.mk (some client)).getPost ecmaRuntime cid).1
          = .ok (.obj [("title", .str title), ("content", .str content),
              ("author", .str author), ("timestamp", .str timestamp)]) := by
  obtain ⟨text, htext, hparse⟩ := jsonParse_jsonStringify
    [("title", .str title), ("content", .str content),
      ("author", .str author), ("timestamp", .str timestamp)]
    (by
      intro kv hkv
      simp only [List.mem_cons, List.mem_singleton, List.not_mem_nil, or_false] at hkv
      rcases hkv with h | h | h | h <;> subst h <;> exact ⟨_, rfl⟩)
    (by simp)
  refine ⟨text, htext, ?_, ?_⟩
  · simp only [IpfsService.storePost, ecmaRuntime, htext]
    cases client.add (utf8Encode text) <;> rfl
  · intro cid hcid
    obtain ⟨chunks, hcat, hjoin⟩ := hstore _ _ hcid
    simp only [IpfsService.getPost, ecmaRuntime, hcat, hjoin, utf8Decode_utf8Encode, hparse]

theorem sampleClient_returns_added (cid : String) (payload : List Nat) :
    ∀ bytes c, (sampleClient cid payload).add bytes = .ok c →
      ∃ chunks, (sampleClient cid payload).cat c = .ok chunks ∧ chunks.flatten = bytes := by
  intro bytes c h
  simp only [sampleClient] at h ⊢
  by_cases hb : bytes = payload
  · rw [if_pos hb] at h
    cases h
    exact ⟨_, if_pos rfl, by simp [hb]⟩
  · rw [if_neg hb] at h
    cases h

/-- Scenario for C5: the record of the publish scenario is stored under `Qm123`, streamed
back in two chunks and parsed to the same record. -/
theorem getPost_storePost_roundtrip_witness :
    (IpfsService.storePost ecmaRuntime
        ⟨some (sampleClient "Qm123" (payloadOf samplePostData))⟩ samplePostData).1
      = .ok "Qm123" ∧
    (IpfsService.getPost ecmaRuntime
        ⟨some (sampleClient "Qm123" (payloadOf samplePostData))⟩ "Qm123").1
      = .ok (.obj [("title", .str "Hello"), ("content", .str "World"),
          ("author", .str "Alice"), ("timestamp", .str "2024-01-01T00:00:00.000Z")]) := by
  obtain ⟨text, htext, _, hget⟩ := getPost_storePost_roundtrip
    (sampleClient "Qm123" (payloadOf samplePostData)) "Hello" "World" "Alice"
    "2024-01-01T00:00:00.000Z" (sampleClient_returns_added _ _)
  refine ⟨rfl, hget "Qm123" ?_⟩
  have ht : text = ((jsonStringify samplePostData).getD "") := by
    have h2 : jsonStringify samplePostData = some text := htext
    rw [h2]
    rfl
  subst ht
  rfl

/-! ### Publish flow -/

theorem storePost_effects (rt : Runtime) (svc : IpfsService) (postData : JsVal) :
    ∀ eff ∈ (svc.storePost rt postData).2,
      eff.isStorePost = false ∧ eff.isCreatePost = false ∧ eff.isLedger = false := by
  intro eff heff
  unfold IpfsService.storePost at heff
  cases hi : svc.ipfs with
  | none =>
    simp only [hi, List.mem_singleton] at heff
    subst heff
    exact ⟨rfl, rfl, rfl⟩
  | some client =>
    simp only [hi] at heff
    cases hj : rt.jsonStringify postData with
    | none =>
      simp only [hj, List.mem_singleton] at heff
      subst heff
      exact ⟨rfl, rfl, rfl⟩
    | some text =>
      simp only [hj] at heff
      cases ha : client.add (rt.utf8Encode text) with
      | error m =>
        simp only [ha, List.mem_cons, List.mem_singleton, List.not_mem_nil, or_false] at heff
        rcases heff with h | h <;> subst h <;> exact ⟨rfl, rfl, rfl⟩
      | ok cid =>
        simp only [ha, List.mem_singleton] at heff
        subst heff
        exact ⟨rfl, rfl, rfl⟩

theorem storePost_countP (rt : Runtime) (svc : IpfsService) (postData : JsVal) :
    (svc.storePost rt postData).2.countP Effect.isStorePost = 0 ∧
    (svc.storePost rt postData).2.countP Effect.isCreatePost = 0 := by
  constructor
  · rw [List.countP_eq_zero]
    intro eff heff
    simp [(storePost_effects rt svc postData eff heff).1]
  · rw [List.countP_eq_zero]
    intro eff heff
    simp [(storePost_effects rt svc postData eff heff).2.1]

theorem postApiCreatePost_accepted (rt : Runtime) (st : ServerState) (now : String)
    (props : List (String × JsVal))
    (ht : ((JsVal.obj props).field "title").truthy = true)
    (hc : ((JsVal.obj props).field "content").truthy = true) :
    postApiCreatePost rt st now (.obj props)
      = match st.ipfsService with
        | none => (⟨500, errorBody "Failed to create post"⟩, [.consoleError "Error creating post:"])
        | some svc =>
          let postData := mkPostData ((JsVal.obj props).field "title")
            ((JsVal.obj props).field "content") ((JsVal.obj props).field "author") now
          match (svc.storePost rt postData).1 with
          | .error _ =>
            (⟨500, errorBody "Failed to create post"⟩,
              .storePost postData :: (svc.storePost rt postData).2 ++
                [.consoleError "Error creating post:"])
          | .ok ipfsHash =>
            (⟨200, .obj [("success", .bool true), ("ipfsHash", .str ipfsHash),
              ("message", .str "Post stored on IPFS. Now create it on blockchain via frontend.")]⟩,
              .storePost postData :: (svc.storePost rt postData).2 ++
                [.consoleLog ("Post stored on IPFS: " ++ ipfsHash)]) := by
  simp only [JsVal.field] at ht hc
  simp only [postApiCreatePost, JsVal.getProp, JsVal.field, ht, hc]
  rfl

theorem postApiCreatePost_rejected (rt : Runtime) (st : ServerState) (now : String)
    (props : List (String × JsVal))
    (h : ((JsVal.obj props).field "title").truthy = false ∨
      ((JsVal.obj props).field "content").truthy = false) :
    postApiCreatePost rt st now (.obj props)
      = (⟨400, errorBody "Title and content are required"⟩, []) := by
  simp only [JsVal.field] at h
  simp only [postApiCreatePost, JsVal.getProp]
  rcases h with h | h <;> simp [h]


theorem publishBody_fields (t c a : String) :
    (JsVal.obj [("title", .str t), ("content", .str c), ("author", .str a)]).field "title"
        = .str t ∧
    (JsVal.obj [("title", .str t), ("content", .str c), ("author", .str a)]).field "content"
        = .str c ∧
    (JsVal.obj [("title", .str t), ("content", .str c), ("author", .str a)]).field "author"
        = .str a := by
  simp [JsVal.field, JsVal.findProp]

theorem truthy_str (s : String) (h : s ≠ "") : (JsVal.str s).truthy = true := by
  simp [JsVal.truthy, h]

theorem postApiCreatePost_publishBody (rt : Runtime) (st : ServerState) (now : String)
    (t c a : String) (ht : t ≠ "") (hc : c ≠ "") :
    postApiCreatePost rt st now (.obj [("title", .str t), ("content", .str c), ("author", .str a)])
      = match st.ipfsService with
        | none => (⟨500, errorBody "Failed to create post"⟩, [.consoleError "Error creating post:"])
        | some svc =>
          match (svc.storePost rt (mkPostData (.str t) (.str c) (.str a) now)).1 with
          | .error _ =>
            (⟨500, errorBody "Failed to create post"⟩,
              .storePost (mkPostData (.str t) (.str c) (.str a) now) ::
                (svc.storePost rt (mkPostData (.str t) (.str c) (.str a) now)).2 ++
                [.consoleError "Error creating post:"])
          | .ok ipfsHash =>
            (⟨200, .obj [("success", .bool true), ("ipfsHash", .str ipfsHash),
              ("message", .str "Post stored on IPFS. Now create it on blockchain via frontend.")]⟩,
              .storePost (mkPostData (.str t) (.str c) (.str a) now) ::
                (svc.storePost rt (mkPostData (.str t) (.str c) (.str a) now)).2 ++
                [.consoleLog ("Post stored on IPFS: " ++ ipfsHash)]) := by
  obtain ⟨h1, h2, h3⟩ := publishBody_fields t c a
  rw [postApiCreatePost_accepted rt st now _ (by rw [h1]; exact truthy_str t ht)
    (by rw [h2]; exact truthy_str c hc), h1, h2, h3]

/-- C4: in a publish attempt whose content-store write fails (the request does not reach
the backend, or the backend has no service object or its `storePost` throws), no effect
of `handleCreatePost` reaches the ledger: `contract.createPost` and `tx.wait` are never
called; and when the backend is reached with a non-empty title and content it answers
500 with the body `error: Failed to create post`. -/
theorem handleCreatePost_no_ledger_write_after_store_failure (app : AppState)
    (form : FormInput) (link : Except String Backend)
    (hfail : (∃ m, link = .error m) ∨
      ∃ backend, link = .ok backend ∧
        ∀ svc, backend.state.ipfsService = some svc →
          ∃ m, (svc.storePost backend.rt
            (mkPostData (.str (jsTrim form.title)) (.str (jsTrim form.content))
              (.str (jsTrim form.author)) backend.now)).1 = .error m) :
    (∀ eff ∈ handleCreatePost app form link, eff.isLedger = false) ∧
    ∀ backend, link = .ok backend → jsTrim form.title ≠ "" → jsTrim form.content ≠ "" →
      (postApiCreatePost backend.rt backend.state backend.now
        (.obj [("title", .str (jsTrim form.title)), ("content", .str (jsTrim form.content)),
          ("author", .str (jsTrim form.author))])).1
        = ⟨500, errorBody "Failed to create post"⟩ := by
  have hresp : ∀ backend, link = .ok backend → jsTrim form.title ≠ "" →
      jsTrim form.content ≠ "" →
      ∃ effs, postApiCreatePost backend.rt backend.state backend.now
        (.obj [("title", .str (jsTrim form.title)), ("content", .str (jsTrim form.content)),
          ("author", .str (jsTrim form.author))])
        = (⟨500, errorBody "Failed to create post"⟩, effs) ∧
          ∀ eff ∈ effs, eff.isLedger = false := by
    intro backend hlink ht hc
    rw [postApiCreatePost_publishBody _ _ _ _ _ _ ht hc]
    rcases hfail with ⟨m, hm⟩ | ⟨b, hb, hstore⟩
    · rw [hm] at hlink; cases hlink
    · rw [hb] at hlink
      cases hlink
      cases hsvc : backend.state.ipfsService with
      | none =>
        refine ⟨_, rfl, ?_⟩
        intro eff heff
        simp only [List.mem_singleton] at heff
        subst heff; rfl
      | some svc =>
        obtain ⟨m, hm⟩ := hstore svc hsvc
        simp only [hm]
        refine ⟨_, rfl, ?_⟩
        intro eff heff
        simp only [List.mem_cons, List.mem_append, List.mem_singleton, List.not_mem_nil,
          or_false] at heff
        rcases heff with (h | h) | h
        · subst h; rfl
        · exact (storePost_effects _ _ _ eff h).2.2
        · subst h; rfl
  refine ⟨?_, fun backend hlink ht hc => ?_⟩
  · unfold handleCreatePost
    simp only
    by_cases hempty : jsTrim form.title = "" ∨ jsTrim form.content = ""
    · rw [if_pos hempty]
      intro eff heff
      simp only [List.mem_singleton] at heff
      subst heff; rfl
    · rw [if_neg hempty]
      simp only [not_or] at hempty
      cases happ : app.contract with
      | none =>
        intro eff heff
        simp only [List.mem_singleton] at heff
        subst heff; rfl
      | some contract =>
        cases hlink : link with
        | error m =>
          intro eff heff
          simp only [publishFailed, List.mem_cons, List.mem_append, List.mem_singleton,
            List.not_mem_nil, or_false] at heff
          rcases heff with (h | h) | h | h <;> subst h <;> rfl
        | ok backend =>
          obtain ⟨effs, hr, heffs⟩ := hresp backend hlink hempty.1 hempty.2
          simp only [hr, anchorOnLedger, errorBody, JsVal.getProp, JsVal.findProp, JsVal.field]
          intro eff heff
          simp [JsVal.truthy, publishFailed] at heff
          rcases heff with h | h | h | h | h
          · subst h; rfl
          · subst h; rfl
          · exact heffs eff h
          · subst h; rfl
          · subst h; rfl
  · obtain ⟨effs, hr, _⟩ := hresp backend hlink ht hc
    rw [hr]

/-- Scenario for C4: the backend is reachable but its node refuses the write; the publish
attempt reaches no ledger call. -/
theorem handleCreatePost_no_ledger_write_after_store_failure_witness :
    (IpfsService.storePost ecmaRuntime ⟨some
        ⟨.error "ECONNREFUSED", fun _ => .error "ECONNREFUSED", fun _ => .error "ECONNREFUSED"⟩⟩
      samplePostData).1 = .error "ECONNREFUSED" ∧
    (handleCreatePost sampleApp sampleForm (.ok nodeDownBackend)).all
      (fun eff => !eff.isLedger) = true :=
  ⟨rfl, List.all_eq_true.2 (fun eff heff => by
    have h := (handleCreatePost_no_ledger_write_after_store_failure sampleApp sampleForm
      (.ok nodeDownBackend)
      (Or.inr ⟨nodeDownBackend, rfl, fun svc hsvc => by
        have hs : svc = ⟨some ⟨.error "ECONNREFUSED", fun _ => .error "ECONNREFUSED",
            fun _ => .error "ECONNREFUSED"⟩⟩ := (Option.some.inj hsvc).symm
        subst hs
        exact ⟨"ECONNREFUSED", rfl⟩⟩)).1 eff heff
    simp [h])⟩

theorem storePost_no_fetch (rt : Runtime) (svc : IpfsService) (postData : JsVal) :
    (svc.storePost rt postData).2.countP Effect.isFetchCreatePost = 0 := by
  rw [List.countP_eq_zero]
  intro eff heff
  unfold IpfsService.storePost at heff
  cases hi : svc.ipfs with
  | none =>
    simp only [hi, List.mem_singleton] at heff
    subst heff
    simp [Effect.isFetchCreatePost]
  | some client =>
    simp only [hi] at heff
    cases hj : rt.jsonStringify postData with
    | none =>
      simp only [hj, List.mem_singleton] at heff
      subst heff
      simp [Effect.isFetchCreatePost]
    | some text =>
      simp only [hj] at heff
      cases ha : client.add (rt.utf8Encode text) with
      | error m =>
        simp only [ha, List.mem_cons, List.mem_singleton, List.not_mem_nil, or_false] at heff
        rcases heff with h | h <;> subst h <;> simp [Effect.isFetchCreatePost]
      | ok cid =>
        simp only [ha, List.mem_singleton] at heff
        subst heff
        simp [Effect.isFetchCreatePost]

theorem postApiCreatePost_counts (rt : Runtime) (st : ServerState) (now : String)
    (t c a : String) (ht : t ≠ "") (hc : c ≠ "") :
    (postApiCreatePost rt st now
      (.obj [("title", .str t), ("content", .str c), ("author", .str a)])).2.countP
        Effect.isFetchCreatePost = 0 ∧
    (postApiCreatePost rt st now
      (.obj [("title", .str t), ("content", .str c), ("author", .str a)])).2.countP
        Effect.isCreatePost = 0 ∧
    (postApiCreatePost rt st now
      (.obj [("title", .str t), ("content", .str c), ("author", .str a)])).2.countP
        Effect.isStorePost = if st.ipfsService.isSome then 1 else 0 := by
  rw [postApiCreatePost_publishBody rt st now t c a ht hc]
  cases hsvc : st.ipfsService with
  | none => simp [Effect.isFetchCreatePost, Effect.isCreatePost, Effect.isStorePost]
  | some svc =>
    have h1 := storePost_no_fetch rt svc (mkPostData (.str t) (.str c) (.str a) now)
    have h2 := storePost_countP rt svc (mkPostData (.str t) (.str c) (.str a) now)
    simp only [Option.isSome_some, if_true]
    cases hr : (svc.storePost rt (mkPostData (.str t) (.str c) (.str a) now)).1 <;>
      simp only [hr, List.countP_cons, List.countP_append, List.countP_nil, h1, h2.1, h2.2,
        Effect.isFetchCreatePost, Effect.isCreatePost, Effect.isStorePost] <;>
      simp

theorem anchorOnLedger_counts (contract : Contract) (result : JsVal) :
    (anchorOnLedger contract result).countP Effect.isFetchCreatePost = 0 ∧
    (anchorOnLedger contract result).countP Effect.isStorePost = 0 ∧
    (anchorOnLedger contract result).countP Effect.isCreatePost ≤ 1 := by
  unfold anchorOnLedger
  cases result.getProp "success" with
  | error m => exact ⟨rfl, rfl, le_of_eq_of_le (rfl : _ = 0) (Nat.zero_le 1)⟩
  | ok success =>
    simp only
    cases success.truthy with
    | false => exact ⟨rfl, rfl, le_of_eq_of_le (rfl : _ = 0) (Nat.zero_le 1)⟩
    | true =>
      simp only [Bool.not_true, Bool.false_eq_true, if_false]
      cases contract.createPost (result.field "ipfsHash") with
      | error m => exact ⟨rfl, rfl, Nat.le_of_eq rfl⟩
      | ok tx =>
        cases tx with
        | error m => exact ⟨rfl, rfl, Nat.le_of_eq rfl⟩
        | ok u => exact ⟨rfl, rfl, Nat.le_of_eq rfl⟩

/-- C7 (amended): an invocation of `handleCreatePost` with non-empty trimmed title and
content and a connected contract sends exactly one publish request; for every outcome of
the store and of the ledger it performs at most one `storePost` call and at most one
`contract.createPost` call; and the `storePost` call happens exactly once whenever the
request reaches a backend whose service object exists. -/
theorem handleCreatePost_write_counts (app : AppState) (form : FormInput)
    (link : Except String Backend) (contract : Contract)
    (ht : jsTrim form.title ≠ "") (hc : jsTrim form.content ≠ "")
    (hcon : app.contract = some contract) :
    (handleCreatePost app form link).countP Effect.isFetchCreatePost = 1 ∧
    (handleCreatePost app form link).countP Effect.isStorePost ≤ 1 ∧
    (handleCreatePost app form link).countP Effect.isCreatePost ≤ 1 ∧
    ∀ backend svc, link = .ok backend → backend.state.ipfsService = some svc →
      (handleCreatePost app form link).countP Effect.isStorePost = 1 := by
  unfold handleCreatePost
  simp only [hcon]
  rw [if_neg (by simp [ht, hc])]
  cases link with
  | error m =>
    refine ⟨rfl, le_of_eq_of_le (rfl : _ = 0) (Nat.zero_le 1),
      le_of_eq_of_le (rfl : _ = 0) (Nat.zero_le 1), ?_⟩
    intro backend svc h
    cases h
  | ok backend =>
    obtain ⟨h1, h2, h3⟩ := postApiCreatePost_counts backend.rt backend.state backend.now
      (jsTrim form.title) (jsTrim form.content) (jsTrim form.author) ht hc
    obtain ⟨k1, k2, k3⟩ := anchorOnLedger_counts contract
      (postApiCreatePost backend.rt backend.state backend.now
        (.obj [("title", .str (jsTrim form.title)), ("content", .str (jsTrim form.content)),
          ("author", .str (jsTrim form.author))])).1.body
    simp only [List.countP_append, h1, h2, h3, k1, k2]
    have e1 : List.countP Effect.isFetchCreatePost
        [Effect.showStatus "Creating post on IPFS..." "success",
          Effect.fetchCreatePost (.obj [("title", .str (jsTrim form.title)),
            ("content", .str (jsTrim form.content)),
            ("author", .str (jsTrim form.author))])] = 1 := rfl
    have e2 : List.countP Effect.isStorePost
        [Effect.showStatus "Creating post on IPFS..." "success",
          Effect.fetchCreatePost (.obj [("title", .str (jsTrim form.title)),
            ("content", .str (jsTrim form.content)),
            ("author", .str (jsTrim form.author))])] = 0 := rfl
    have e3 : List.countP Effect.isCreatePost
        [Effect.showStatus "Creating post on IPFS..." "success",
          Effect.fetchCreatePost (.obj [("title", .str (jsTrim form.title)),
            ("content", .str (jsTrim form.content)),
            ("author", .str (jsTrim form.author))])] = 0 := rfl
    rw [e1, e2, e3]
    refine ⟨rfl, ?_, by omega, ?_⟩
    · split <;> omega
    · intro b svc hb hsvc
      cases hb
      simp [hsvc]

/-- Scenario for C7: a publish through a reachable backend sends one request and performs
one `storePost` call. -/
theorem handleCreatePost_write_counts_witness :
    jsTrim sampleForm.title ≠ "" ∧ jsTrim sampleForm.content ≠ "" ∧
    sampleApp.contract = some (sampleContract []) ∧
    (handleCreatePost sampleApp sampleForm (.ok sampleBackend)).countP
      Effect.isFetchCreatePost = 1 ∧
    (handleCreatePost sampleApp sampleForm (.ok sampleBackend)).countP Effect.isStorePost = 1 :=
  ⟨by decide, by decide, rfl,
    (handleCreatePost_write_counts sampleApp sampleForm (.ok sampleBackend) (sampleContract [])
      (by decide) (by decide) rfl).1,
    (handleCreatePost_write_counts sampleApp sampleForm (.ok sampleBackend) (sampleContract [])
      (by decide) (by decide) rfl).2.2.2 sampleBackend
        ⟨some (sampleClient "Qm123" (payloadOf samplePostData))⟩ rfl rfl⟩

theorem initializeServices_ipfsService (w : StartupWorld) (st : ServerState) :
    (initializeServices w st).1.ipfsService = some (IpfsService.new.init w.ipfsCreate).1 := by
  unfold initializeServices
  simp only
  cases (IpfsService.new.init w.ipfsCreate).2.1 with
  | error e => rfl
  | ok u =>
    simp only
    cases w.newProvider with
    | error e => rfl
    | ok u2 =>
      simp only
      cases w.contractInfoFile with
      | none => rfl
      | some r =>
        cases r with
        | error e => rfl
        | ok info =>
          simp only
          cases w.newContract info <;> rfl

theorem initializeServices_no_contract (w : StartupWorld)
    (hfile : w.contractInfoFile = none) :
    (initializeServices w ServerState.initial).1.contract = none := by
  unfold initializeServices
  simp only [hfile]
  cases (IpfsService.new.init w.ipfsCreate).2.1 with
  | error e => rfl
  | ok u =>
    simp only
    cases w.newProvider <;> rfl

theorem storePost_filter (rt : Runtime) (svc : IpfsService) (postData : JsVal) :
    (svc.storePost rt postData).2.filter Effect.isStorePost = [] := by
  rw [List.filter_eq_nil_iff]
  intro eff heff
  simp [(storePost_effects rt svc postData eff heff).1]

/-- C6: in every server state `POST /api/createPost` rejects a body whose title or
content is missing or empty with status 400 and the error
`Title and content are required`, performing no effect at all (and the frontend sends no
request for such a form); on a server that ran `initializeServices`, a body with
non-empty title and content leads to exactly one `storePost` call and no ledger call,
the record stored being the request's title and content, the request's author
(`Anonymous` when the author is missing or empty) and the current time. -/
theorem postApiCreatePost_validation (rt : Runtime) (st : ServerState) (w : StartupWorld)
    (now : String) (props : List (String × JsVal)) (app : AppState) (form : FormInput)
    (link : Except String Backend) :
    (((JsVal.obj props).field "title" = .undefined ∨ (JsVal.obj props).field "title" = .str "" ∨
        (JsVal.obj props).field "content" = .undefined ∨
        (JsVal.obj props).field "content" = .str "") →
      postApiCreatePost rt st now (.obj props)
        = (⟨400, errorBody "Title and content are required"⟩, [])) ∧
    ((jsTrim form.title = "" ∨ jsTrim form.content = "") →
      handleCreatePost app form link
        = [.showStatus "Please fill in title and content" "error"]) ∧
    (∀ t c, (JsVal.obj props).field "title" = .str t → t ≠ "" →
      (JsVal.obj props).field "content" = .str c → c ≠ "" →
      ∃ author,
        (((JsVal.obj props).field "author" = .undefined ∨
            (JsVal.obj props).field "author" = .str "") → author = .str "Anonymous") ∧
        (∀ a, (JsVal.obj props).field "author" = .str a → a ≠ "" → author = .str a) ∧
        (postApiCreatePost rt (initializeServices w ServerState.initial).1 now
            (.obj props)).2.filter Effect.isStorePost
          = [.storePost (.obj [("title", .str t), ("content", .str c), ("author", author),
              ("timestamp", .str now)])] ∧
        ∀ eff ∈ (postApiCreatePost rt (initializeServices w ServerState.initial).1 now
            (.obj props)).2, eff.isLedger = false) := by
  refine ⟨?_, ?_, ?_⟩
  · intro h
    apply postApiCreatePost_rejected
    rcases h with h | h | h | h
    · left; rw [h]; rfl
    · left; rw [h]; rfl
    · right; rw [h]; rfl
    · right; rw [h]; rfl
  · intro h
    unfold handleCreatePost
    simp only
    rw [if_pos h]
  · intro t c ht hte hc hce
    refine ⟨if ((JsVal.obj props).field "author").truthy then (JsVal.obj props).field "author"
      else .str "Anonymous", ?_, ?_, ?_, ?_⟩
    · intro h
      rcases h with h | h <;> rw [h] <;> rfl
    · intro a ha hae
      rw [ha, truthy_str a hae]
      rfl
    · rw [postApiCreatePost_accepted rt _ now props (by rw [ht]; exact truthy_str t hte)
        (by rw [hc]; exact truthy_str c hce), initializeServices_ipfsService, ht, hc]
      simp only
      cases hr : ((IpfsService.new.init w.ipfsCreate).1.storePost rt
          (mkPostData (.str t) (.str c) ((JsVal.obj props).field "author") now)).1 <;>
        simp only [hr, List.filter_cons, List.filter_append, storePost_filter,
          Effect.isStorePost, List.filter_nil, if_true, List.nil_append, mkPostData] <;>
        rfl
    · rw [postApiCreatePost_accepted rt _ now props (by rw [ht]; exact truthy_str t hte)
        (by rw [hc]; exact truthy_str c hce), initializeServices_ipfsService, ht, hc]
      simp only
      intro eff heff
      cases hr : ((IpfsService.new.init w.ipfsCreate).1.storePost rt
          (mkPostData (.str t) (.str c) ((JsVal.obj props).field "author") now)).1 <;>
        simp only [hr, List.mem_cons, List.mem_append, List.mem_singleton, List.not_mem_nil,
          or_false] at heff <;>
        (rcases heff with (h | h) | h
         · subst h; rfl
         · exact (storePost_effects _ _ _ eff h).2.2
         · subst h; rfl)

/-- Scenario for C6: a request with an empty title is answered 400 with no effect. -/
theorem postApiCreatePost_validation_witness :
    postApiCreatePost ecmaRuntime (initializeServices noContractWorld ServerState.initial).1
        "2024-01-01T00:00:00.000Z" (.obj [("title", .str ""), ("content", .str "World")])
      = (⟨400, errorBody "Title and content are required"⟩, []) :=
  (postApiCreatePost_validation ecmaRuntime
    (initializeServices noContractWorld ServerState.initial).1 noContractWorld
    "2024-01-01T00:00:00.000Z" [("title", .str ""), ("content", .str "World")]
    sampleApp sampleForm (.ok sampleBackend)).1 (Or.inr (Or.inl rfl))


/-- C8: after `initializeServices` found no contract-info file while the connection to
the content store succeeded, `GET /api/posts` answers the error `Contract not initialized`
without any effect, and `POST /api/createPost` with non-empty title and content still
calls `storePost` with the record, hands its serialization to the node, and answers
success with the identifier the node returns. -/
theorem content_only_mode (rt : Runtime) (w : StartupWorld) (client : IpfsClient)
    (version now t c : String) (props : List (String × JsVal))
    (hfile : w.contractInfoFile = none) (hcreate : w.ipfsCreate = .ok client)
    (hversion : client.version = .ok version)
    (ht : (JsVal.obj props).field "title" = .str t) (hte : t ≠ "")
    (hc : (JsVal.obj props).field "content" = .str c) (hce : c ≠ "") :
    getApiPosts rt (initializeServices w ServerState.initial).1
      = (⟨500, errorBody "Contract not initialized"⟩, []) ∧
    Effect.storePost (mkPostData (.str t) (.str c) ((JsVal.obj props).field "author") now)
      ∈ (postApiCreatePost rt (initializeServices w ServerState.initial).1 now (.obj props)).2 ∧
    ∀ text, rt.jsonStringify
        (mkPostData (.str t) (.str c) ((JsVal.obj props).field "author") now) = some text →
      Effect.ipfsAdd (rt.utf8Encode text)
        ∈ (postApiCreatePost rt (initializeServices w ServerState.initial).1 now
            (.obj props)).2 ∧
      ∀ cid, client.add (rt.utf8Encode text) = .ok cid →
        (postApiCreatePost rt (initializeServices w ServerState.initial).1 now (.obj props)).1
          = ⟨200, .obj [("success", .bool true), ("ipfsHash", .str cid),
              ("message",
                .str "Post stored on IPFS. Now create it on blockchain via frontend.")]⟩ := by
  have hsvc : (initializeServices w ServerState.initial).1.ipfsService
      = some ⟨some client⟩ := by
    rw [initializeServices_ipfsService, hcreate]
    simp [IpfsService.init, hversion]
  have hpost := postApiCreatePost_accepted rt (initializeServices w ServerState.initial).1 now
    props (by rw [ht]; exact truthy_str t hte) (by rw [hc]; exact truthy_str c hce)
  rw [hsvc, ht, hc] at hpost
  simp only at hpost
  refine ⟨?_, ?_, ?_⟩
  · simp [getApiPosts, initializeServices_no_contract w hfile]
  · rw [hpost]
    cases (IpfsService.storePost rt ⟨some client⟩
      (mkPostData (.str t) (.str c) ((JsVal.obj props).field "author") now)).1 <;> simp
  · intro text htext
    have hstore : IpfsService.storePost rt ⟨some client⟩
        (mkPostData (.str t) (.str c) ((JsVal.obj props).field "author") now)
        = match client.add (rt.utf8Encode text) with
          | .ok cid => (.ok cid, [.ipfsAdd (rt.utf8Encode text)])
          | .error e => (.error e, [.ipfsAdd (rt.utf8Encode text),
              .consoleError "Error storing post on IPFS:"]) := by
      simp only [IpfsService.storePost, htext]
    rw [hpost, hstore]
    refine ⟨?_, ?_⟩
    · cases client.add (rt.utf8Encode text) <;> simp
    · intro cid hcid
      rw [hcid]

/-- Scenario for C8: without a contract-info file the listing is refused while a publish
is stored and answered with the identifier `Qm123`. -/
theorem content_only_mode_witness :
    getApiPosts ecmaRuntime (initializeServices noContractWorld ServerState.initial).1
      = (⟨500, errorBody "Contract not initialized"⟩, []) ∧
    (postApiCreatePost ecmaRuntime (initializeServices noContractWorld ServerState.initial).1
        "2024-01-01T00:00:00.000Z"
        (.obj [("title", .str "Hello"), ("content", .str "World"), ("author", .str "Alice")])).1
      = ⟨200, .obj [("success", .bool true), ("ipfsHash", .str "Qm123"),
          ("message", .str "Post stored on IPFS. Now create it on blockchain via frontend.")]⟩ :=
  have h := content_only_mode ecmaRuntime noContractWorld
    (sampleClient "Qm123" (payloadOf samplePostData)) "0.20.0" "2024-01-01T00:00:00.000Z"
    "Hello" "World" [("title", .str "Hello"), ("content", .str "World"), ("author", .str "Alice")]
    rfl rfl rfl rfl (by decide) rfl (by decide)
  ⟨h.1, (h.2.2 ((jsonStringify samplePostData).getD "") rfl).2 "Qm123" rfl⟩

/-- C9 (failing input): when the IPFS node refuses the connection test, `init` throws, yet
the service object was already assigned, so `GET /api/health` reports `ipfs: connected`
(as it does after every run of `initializeServices`); the contract, never constructed,
is reported `disconnected`. -/
theorem getApiHealth_connected_after_failed_init :
    (IpfsService.new.init nodeDownWorld.ipfsCreate).2.1 = .error "ECONNREFUSED" ∧
    (getApiHealth (initializeServices nodeDownWorld ServerState.initial).1).body.field "ipfs"
      = .str "connected" ∧
    (getApiHealth (initializeServices nodeDownWorld ServerState.initial).1).body.field
      "contract" = .str "disconnected" ∧
    ∀ w : StartupWorld,
      (getApiHealth (initializeServices w ServerState.initial).1).body.field "ipfs"
        = .str "connected" := by
  refine ⟨rfl, rfl, rfl, fun w => ?_⟩
  simp only [getApiHealth, initializeServices_ipfsService]
  rfl

/-- C2 (failing input): the record written by `POST /api/createPost` carries a `timestamp`
key, and the spread of the fetched content after the ledger fields replaces the ledger
timestamp of the merged post by the record's ISO date. -/
theorem getApiPosts_timestamp_overwritten :
    contentLookup ecmaRuntime (sampleServer [sampleEntry] samplePostData) "Qm123"
      = .ok samplePostData ∧
    postsOf (getApiPosts ecmaRuntime (sampleServer [sampleEntry] samplePostData)).1
      = some [.obj [("id", .str "1"),
          ("creator", .str "0x70997970C51812dc3A010C7d01b50e0d17dc79C8"),
          ("ipfsHash", .str "Qm123"), ("rating", .str "0"),
          ("timestamp", .str "2024-01-01T00:00:00.000Z"),
          ("title", .str "Hello"), ("content", .str "World"), ("author", .str "Alice")]] ∧
    (mergedPost sampleEntry samplePostData).field "timestamp"
      = .str "2024-01-01T00:00:00.000Z" ∧
    (mergedPost sampleEntry samplePostData).field "timestamp"
      ≠ .str (toString sampleEntry.timestamp) := by
  refine ⟨rfl, rfl, rfl, ?_⟩
  intro h
  have h2 : (JsVal.str "2024-01-01T00:00:00.000Z") = .str "1700000000" := h
  injection h2 with h3
  revert h3
  decide

/-- C7 (counterexample): with a non-empty title and content and a connected contract,
a publish request that does not reach the backend performs no `storePost` call. -/
theorem handleCreatePost_no_store_write_when_unreachable :
    jsTrim sampleForm.title ≠ "" ∧ jsTrim sampleForm.content ≠ "" ∧
    sampleApp.contract.isSome = true ∧
    ¬ ((handleCreatePost sampleApp sampleForm (.error "Failed to fetch")).countP
        Effect.isStorePost = 1) := by
  refine ⟨by decide, by decide, rfl, ?_⟩
  have h : (handleCreatePost sampleApp sampleForm (.error "Failed to fetch")).countP
      Effect.isStorePost = 0 := by
    exact (by decide : (handleCreatePost sampleApp sampleForm (.error "Failed to fetch")).countP
      Effect.isStorePost = 0)
  omega

/-! ### Rendering order -/

theorem digitValue_decimal (c : Char) (h : 48 ≤ c.toNat ∧ c.toNat ≤ 57) :
    digitValue 10 c = some (c.toNat - 48) := by
  unfold digitValue
  simp only
  rw [if_pos h, if_pos (by omega)]

theorem readDigits_decimal (l : List Char) (acc : Nat) (seen : Bool)
    (h : ∀ c ∈ l, 48 ≤ c.toNat ∧ c.toNat ≤ 57) :
    readDigits 10 l acc seen
      = (l.foldl (fun a c => a * 10 + (c.toNat - 48)) acc, seen || !l.isEmpty) := by
  induction l generalizing acc seen with
  | nil => simp [readDigits]
  | cons c rest ih =>
    rw [readDigits, digitValue_decimal c (h c (List.mem_cons_self _ _))]
    simp only
    rw [ih _ _ (fun d hd => h d (List.mem_cons_of_mem _ hd))]
    simp

theorem isJsWhitespace_digit (c : Char) (h : 48 ≤ c.toNat ∧ c.toNat ≤ 57) :
    isJsWhitespace c = false := by
  unfold isJsWhitespace
  simp only [Bool.or_eq_false_iff, decide_eq_false_iff_not, Bool.and_eq_false_imp,
    decide_eq_true_eq]
  omega

theorem parseInt_decimal (s : String) (h : isDecimal s) :
    parseInt s = some (decimalValue s : Int) := by
  obtain ⟨hne, hd⟩ := h
  unfold parseInt decimalValue
  cases hl : s.toList with
  | nil => exact absurd hl hne
  | cons c rest =>
    rw [hl] at hd
    have hc := hd c (List.mem_cons_self _ _)
    have hws := isJsWhitespace_digit c hc
    have h1 : c ≠ '-' := by
      intro h; subst h; revert hc; decide
    have h2 : c ≠ '+' := by
      intro h; subst h; revert hc; decide
    have hx : ∀ d ∈ rest, d ≠ 'x' ∧ d ≠ 'X' := by
      intro d hdm
      have := hd d (List.mem_cons_of_mem _ hdm)
      constructor <;> (intro h; subst h; revert this; decide)
    simp only [List.dropWhile_cons, hws, Bool.false_eq_true, if_false, List.head?_cons,
      Option.some.injEq, h1, h2, or_self]
    have hhex : startsWithHexMark (c :: rest) = false := by
      cases rest with
      | nil => unfold startsWithHexMark; split <;> simp_all
      | cons d rest' =>
        have := hx d (List.mem_cons_self _ _)
        unfold startsWithHexMark
        split <;> simp_all
    simp only [hhex, Bool.false_eq_true, if_false]
    rw [readDigits_decimal _ _ _ hd]
    simp

theorem sortLe_compareFn_decimal (a b : PostView) (ha : isDecimal a.timestamp)
    (hb : isDecimal b.timestamp) :
    sortLe compareFn a b ↔ (decimalValue b.timestamp : Int) ≤ (decimalValue a.timestamp : Int) := by
  unfold sortLe compareFn
  rw [parseInt_decimal _ ha, parseInt_decimal _ hb]
  simp only
  omega

theorem orderedInsert_newest_first (a : PostView) (l : List PostView)
    (hdec : ∀ p ∈ a :: l, isDecimal p.timestamp)
    (hs : l.Pairwise (fun x y => (decimalValue y.timestamp : Int) ≤ decimalValue x.timestamp)) :
    (l.orderedInsert (sortLe compareFn) a).Pairwise
      (fun x y => (decimalValue y.timestamp : Int) ≤ decimalValue x.timestamp) := by
  induction l with
  | nil => simp
  | cons b rest ih =>
    have ha := hdec a (List.mem_cons_self _ _)
    have hb := hdec b (List.mem_cons_of_mem _ (List.mem_cons_self _ _))
    rw [List.pairwise_cons] at hs
    simp only [List.orderedInsert]
    by_cases hle : sortLe compareFn a b
    · rw [if_pos hle]
      have hab := (sortLe_compareFn_decimal a b ha hb).1 hle
      refine List.pairwise_cons.2 ⟨?_, List.pairwise_cons.2 hs⟩
      intro x hx
      rcases List.mem_cons.1 hx with hx | hx
      · subst hx; exact hab
      · exact le_trans (hs.1 x hx) hab
    · rw [if_neg hle]
      have hab : ¬ (decimalValue b.timestamp : Int) ≤ decimalValue a.timestamp :=
        fun h => hle ((sortLe_compareFn_decimal a b ha hb).2 h)
      refine List.pairwise_cons.2 ⟨?_, ih ?_ hs.2⟩
      · intro x hx
        rcases (List.mem_orderedInsert _).1 hx with hx | hx
        · subst hx; omega
        · exact hs.1 x hx
      · intro p hp
        rcases List.mem_cons.1 hp with hp | hp
        · subst hp; exact ha
        · exact hdec p (List.mem_cons_of_mem _ (List.mem_cons_of_mem _ hp))

theorem arraySort_newest_first (l : List PostView) (hdec : ∀ p ∈ l, isDecimal p.timestamp) :
    (arraySort compareFn l).Pairwise
      (fun x y => (decimalValue y.timestamp : Int) ≤ decimalValue x.timestamp) := by
  unfold arraySort
  induction l with
  | nil => simp
  | cons a rest ih =>
    simp only [List.insertionSort]
    apply orderedInsert_newest_first
    · intro p hp
      rcases List.mem_cons.1 hp with hp | hp
      · subst hp; exact hdec _ (List.mem_cons_self _ _)
      · exact hdec p (List.mem_cons_of_mem _ ((List.mem_insertionSort _).1 hp))
    · exact ih (fun p hp => hdec p (List.mem_cons_of_mem _ hp))

/-- C10: on posts whose timestamps are decimal strings of integers below 2^53,
`renderPosts` renders a permutation of its input in which `parseInt(timestamp)` never
increases from one rendered post to any later one, and the markup is the concatenation
of the per-post templates in that order. -/
theorem renderPosts_newest_first (escapeHtml : String → String)
    (formatDate : Option Int → String) (posts : List PostView)
    (hdec : ∀ p ∈ posts, isDecimal p.timestamp ∧ decimalValue p.timestamp < 2 ^ 53) :
    (renderPosts escapeHtml formatDate posts).order.Perm posts ∧
    (renderPosts escapeHtml formatDate posts).order.Pairwise
      (fun earlier later => ∃ te tl : Int, parseInt earlier.timestamp = some te ∧
        parseInt later.timestamp = some tl ∧ tl ≤ te) ∧
    (renderPosts escapeHtml formatDate posts).innerHTML
      = String.join ((renderPosts escapeHtml formatDate posts).order.map
          (renderPost escapeHtml formatDate)) := by
  refine ⟨List.perm_insertionSort _ _, ?_, rfl⟩
  have hd : ∀ p ∈ posts, isDecimal p.timestamp := fun p hp => (hdec p hp).1
  have hsorted := arraySort_newest_first posts hd
  have hmem : ∀ p ∈ arraySort compareFn posts, isDecimal p.timestamp :=
    fun p hp => hd p ((List.mem_insertionSort _).1 hp)
  simp only [renderPosts]
  refine (List.Pairwise.and_mem.1 hsorted).imp ?_
  intro x y hxy
  exact ⟨_, _, parseInt_decimal _ (hmem x hxy.1), parseInt_decimal _ (hmem y hxy.2.1), hxy.2.2⟩

/-- Scenario for C10: the post created later is rendered first. -/
theorem renderPosts_newest_first_witness :
    (renderPosts id (fun _ => "") samplePosts).order.Perm samplePosts ∧
    (renderPosts id (fun _ => "") samplePosts).order.map PostView.id = ["2", "1"] :=
  ⟨(renderPosts_newest_first id (fun _ => "") samplePosts (by
      intro p hp
      simp only [samplePosts, List.mem_cons, List.mem_singleton, List.not_mem_nil,
        or_false] at hp
      rcases hp with h | h <;> subst h <;>
        exact ⟨⟨by decide, by decide⟩, by decide⟩)).1,
    by decide⟩

end DecentralizedPosts
